import Mathlib

/-!
Verification of the bgammon game-logic core against its specification.

The definitions below are a shallow embedding of the Go sources
(`game.go` of package bgammon, newest version, plus the server session file).
Go slices become Lean lists, `int8` values become unbounded `Int`
(all board counts and dice stay far inside the `int8` range in every state
considered here), and the in-place mutation of the `Game` record becomes
explicit state passing: every mutator returns the new `Game`.
`Game.AddMoves` mutates a deep copy and adopts it only on success, so its
embedding returns the original record on every failure path, exactly as the
Go function leaves the receiver untouched there.

Randomness (`randInt`) and wall-clock time are external inputs; dice values
are therefore passed as arguments to `ServerGame.roll` and time stamps are
omitted (no claim mentions them).

Two pieces of this repository are not part of the provided sources (they
live in `board.go` / `player.go`): the board coordinate constants and
`HomeRange`.  They are modelled from the specification, see their comments.

The recursion of `LegalMoves` / `_totalMoves` / `ExpandMove` terminates in
Go because every simulated move consumes one die and at most four dice are
available; the embedding makes this explicit with a fuel argument that is
chosen larger than any possible recursion depth.  Where the Go code raises
a runtime error on states it considers impossible (`_totalMoves` when
`addMove` rejects an emitted move), the embedding returns the empty list of
continuations; this point is unreachable from any state appearing in the
theorems below.
-/

namespace BG

/-- Variant tag: standard backgammon (`0` in the Go sources). -/
def VariantBackgammon : Int := 0

/-- Variant tag: acey-deucey (`1`). -/
def VariantAceyDeucey : Int := 1

/-- Variant tag: tabula (`2`). -/
def VariantTabula : Int := 2

/-- Modelled from the spec: the board is a fixed sequence of 28 signed
integers, indices 1…24 are points, two indices are the homes and two the
bars (§3, §6).  The numeric values are fixed by the arithmetic of
`SpaceDiff` (`toSp == SpaceHomeOpponent` yields `25 - from`, Player 1 bears
off with pip `from`, hence the homes sit at `0` and `25`) and by
`FlipSpace`, which treats all four constants as lying outside `1…24`,
leaving `26` and `27` for the two bars. -/
def SpaceHomePlayer : Int := 0

/-- Modelled from the spec: opponent home tray, see `SpaceHomePlayer`. -/
def SpaceHomeOpponent : Int := 25

/-- Modelled from the spec: current player's bar, see `SpaceHomePlayer`. -/
def SpaceBarPlayer : Int := 26

/-- Modelled from the spec: opponent's bar, see `SpaceHomePlayer`. -/
def SpaceBarOpponent : Int := 27

/-- A player record: number, display name and the `Entered` flag
(`Player` in the Go sources; the rating fields are never read by the
game-logic core). -/
structure Player where
  number : Int
  name : String
  entered : Bool
deriving Repr, DecidableEq

/-- The `Game` record.  The `Started` / `Ended` time stamps are omitted
(wall-clock time, never read by any operation verified here). -/
structure Game where
  player1 : Player
  player2 : Player
  variant : Int
  board : List Int
  turn : Int
  roll1 : Int
  roll2 : Int
  roll3 : Int
  moves : List (Int × Int)
  winner : Int
  points : Int
  doubleValue : Int
  doublePlayer : Int
  doubleOffered : Bool
  reroll : Bool
  boardStates : List (List Int)
  enteredStates : List (Bool × Bool)
deriving Repr, DecidableEq

/-- Board lookup, `g.Board[i]`.  All indices reaching this function in the
verified code paths are in range, so the default value is never returned
there. -/
def bget (b : List Int) (i : Int) : Int := b.getD i.toNat 0

/-- Board update, `g.Board[i] = v`.  `List.set` beyond the length is the
identity, matching the fact that the verified code paths never index out
of range. -/
def bset (b : List Int) (i : Int) (v : Int) : List Int := b.set i.toNat v

/-- Go's `copy(dst, src)`: overwrite the first `min` entries of `dst` with
those of `src`, keep the rest of `dst`. -/
def copyInto (dst src : List Int) : List Int :=
  src.take (min src.length dst.length) ++ dst.drop (min src.length dst.length)

/-- `PlayerCheckers`: unsigned count of the given player's checkers in a
signed slot value. -/
def PlayerCheckers (checkers player : Int) : Int :=
  if player = 1 then (if checkers > 0 then checkers else 0)
  else (if checkers < 0 then checkers * -1 else 0)

/-- `OpponentCheckers`: unsigned count of the given player's opponent's
checkers in a signed slot value. -/
def OpponentCheckers (checkers player : Int) : Int :=
  if player = 2 then (if checkers > 0 then checkers else 0)
  else (if checkers < 0 then checkers * -1 else 0)

/-- `SpaceDiff(from, toSp, variant)`, the pip distance between two slots. -/
def SpaceDiff (fr toSp variant : Int) : Int :=
  if fr < 0 ∨ fr > 27 ∨ toSp < 0 ∨ toSp > 27 then 0
  else if toSp = SpaceBarPlayer ∨ toSp = SpaceBarOpponent then 0
  else if (fr = SpaceBarPlayer ∨ fr = SpaceBarOpponent) ∧
      (toSp = SpaceBarPlayer ∨ toSp = SpaceBarOpponent ∨ toSp = SpaceHomePlayer ∨ toSp = SpaceHomeOpponent) then 0
  else if toSp = SpaceHomePlayer then
    (if variant = VariantTabula then 25 - fr else fr)
  else if toSp = SpaceHomeOpponent then 25 - fr
  else if fr = SpaceHomePlayer ∨ fr = SpaceHomeOpponent then
    (if variant = VariantAceyDeucey then (if fr = SpaceHomePlayer then 25 - toSp else toSp)
     else if variant = VariantTabula then toSp
     else 0)
  else if fr = SpaceBarPlayer then (if variant = VariantTabula then toSp else 25 - toSp)
  else if fr = SpaceBarOpponent then toSp
  else if toSp - fr < 0 then (toSp - fr) * -1
  else toSp - fr

/-- Ascending integer interval `[a, a+1, …, b]` (empty if `a > b`). -/
def intRangeAsc (a b : Int) : List Int :=
  if a > b then [] else (List.range (b - a + 1).toNat).map (fun k => a + (k : Int))

/-- Descending integer interval `[a, a-1, …, b]` (empty if `a < b`). -/
def intRangeDesc (a b : Int) : List Int :=
  if a < b then [] else (List.range (a - b + 1).toNat).map (fun k => a - (k : Int))

/-- `IterateSpaces(from, toSp, variant, f)` as the list of
`(space, 1-based step count)` pairs the Go callback receives, in order. -/
def IterateSpaces (fr toSp variant : Int) : List (Int × Int) :=
  if fr = toSp ∨ fr < 0 ∨ fr > 25 ∨ toSp < 0 ∨ toSp > 25 then []
  else
    let fr' := if variant = VariantBackgammon then
        (if fr = 0 then 1 else if fr = 25 then 24 else fr)
      else fr
    if toSp > fr' then
      (List.range (toSp - fr' + 1).toNat).map (fun k => (fr' + (k : Int), (k : Int) + 1))
    else
      (List.range (fr' - toSp + 1).toNat).map (fun k => (fr' - (k : Int), (k : Int) + 1))

/-- `FlipSpace(space, player, variant)`. -/
def FlipSpace (space player variant : Int) : Int :=
  if player = 1 then space
  else if space < 1 ∨ space > 24 then
    (if space = SpaceHomePlayer then SpaceHomeOpponent
     else if space = SpaceHomeOpponent then SpaceHomePlayer
     else if space = SpaceBarPlayer then SpaceBarOpponent
     else if space = SpaceBarOpponent then SpaceBarPlayer
     else -1)
  else if variant = VariantTabula then space
  else 24 - space + 1

/-- `ValidSpace(space)`. -/
def ValidSpace (space : Int) : Bool := space ≥ 0 && space ≤ 27

/-- Modelled from the spec: `HomeRange(player, variant)` lives in the
repository's `board.go`, which is not among the provided sources.  The
spec fixes the home quadrants as 1–6 for Player 1, 19–24 for Player 2 and
19–24 for everyone in tabula (§4.B), and the backgammon overshoot rule of
`LegalMoves` walks from the borne-off point toward the *far end* of the
quadrant returned as the second component ("no mover checker lives on a
farther-from-home point", §4.C), which is `6` for Player 1 (ascending
walk) and `19` for Player 2 (descending walk). -/
def HomeRange (player variant : Int) : Int × Int :=
  if player = 2 ∧ variant ≠ VariantTabula then (24, 19) else (1, 6)

/-- `g.turnPlayer()`. -/
def Game.turnPlayer (g : Game) : Player :=
  if g.turn = 2 then g.player2 else g.player1

/-- `g.opponentPlayer()`. -/
def Game.opponentPlayer (g : Game) : Player :=
  if g.turn = 2 then g.player1 else g.player2

/-- `g.SecondHalf(player, local)` (tabula only; the `local` argument is
unused by the Go body).  The Go code raises a runtime error for a player
other than 1 or 2; the embedding returns `false` there, a point that is
unreachable from the states considered in the theorems below. -/
def Game.secondHalf (g : Game) (player : Int) : Bool :=
  if g.variant ≠ VariantTabula then false
  else if player = 1 then
    if bget g.board SpaceBarPlayer ≠ 0 then false
    else if ¬g.player1.entered ∧ bget g.board SpaceHomePlayer ≠ 0 then false
    else (List.range 12).all fun k => decide (¬bget g.board ((k : Int) + 1) > 0)
  else if player = 2 then
    if bget g.board SpaceBarOpponent ≠ 0 then false
    else if ¬g.player2.entered ∧ bget g.board SpaceHomeOpponent ≠ 0 then false
    else (List.range 12).all fun k => decide (¬bget g.board ((k : Int) + 1) < 0)
  else false

/-- `g.setEntered()`. -/
def Game.setEntered (g : Game) : Game :=
  if g.variant = VariantBackgammon then g
  else if ¬g.player1.entered ∧ bget g.board SpaceHomePlayer = 0 then
    { g with player1 := { g.player1 with entered := true } }
  else if ¬g.player2.entered ∧ bget g.board SpaceHomeOpponent = 0 then
    { g with player2 := { g.player2 with entered := true } }
  else g

/-- `g.addMove(move)`: `none` when the Go function returns `false` (the
destination holds two or more opposing checkers; the receiver is untouched
there), otherwise the mutated game.  The pre-move board and `Entered`
snapshots are pushed before the board changes, a hit sends the displaced
blot to the mover's opponent-bar slot. -/
def Game.addMove (g : Game) (m : Int × Int) : Option Game :=
  let oc := OpponentCheckers (bget g.board m.2) g.turn
  if oc > 1 then none
  else
    let delta : Int := if g.turn = 2 then -1 else 1
    let snapB := g.boardStates ++ [g.board]
    let snapE := g.enteredStates ++ [(g.player1.entered, g.player2.entered)]
    let b1 := bset g.board m.1 (bget g.board m.1 - delta)
    let b2 :=
      if oc = 1 then
        let bh := bset b1 m.2 delta
        let barSpace := if g.turn = 2 then SpaceBarPlayer else SpaceBarOpponent
        bset bh barSpace (bget bh barSpace + delta * -1)
      else bset b1 m.2 (bget b1 m.2 + delta)
    some (Game.setEntered { g with
      board := b2
      moves := g.moves ++ [(m.1, m.2)]
      boardStates := snapB
      enteredStates := snapE })

/-- `g.MayBearOff(player, local)`. -/
def Game.mayBearOff (g : Game) (player : Int) (lcl : Bool) : Bool :=
  if PlayerCheckers (bget g.board SpaceBarPlayer) player > 0 ∨
      PlayerCheckers (bget g.board SpaceBarOpponent) player > 0 then false
  else if (player = 1 ∧ ¬g.player1.entered) ∨ (player = 2 ∧ ¬g.player2.entered) then false
  else if g.variant = VariantTabula then g.secondHalf player
  else
    let hr :=
      if lcl then ((1 : Int), (6 : Int))
      else
        let p := HomeRange player g.variant
        (min p.1 p.2, max p.1 p.2)
    (List.range 24).all fun k =>
      decide (¬(((k : Int) + 1 < hr.1 ∨ (k : Int) + 1 > hr.2) ∧
        PlayerCheckers (bget g.board ((k : Int) + 1)) player > 0))

/-- Remove the first list element satisfying `p`
(`rolls = append(rolls[:i], rolls[i+1:]...)` in Go); `none` when no
element satisfies `p`. -/
def removeFirst (p : Int → Bool) : List Int → Option (List Int)
  | [] => none
  | r :: rs => if p r then some rs else (removeFirst p rs).map (r :: ·)

/-- The `useDiceRoll` closure of `g.DiceRolls()`: account for one pending
move by consuming one remaining pip; `none` when the Go closure returns
`false`.  For a move into a home slot an exactly matching pip is preferred
and otherwise any strictly greater pip is consumed (in every variant);
other moves consume an exact `SpaceDiff` match only. -/
def useDiceRoll (variant fr toSp : Int) (rolls : List Int) : Option (List Int) :=
  if toSp = SpaceHomePlayer ∨ toSp = SpaceHomeOpponent then
    let needRoll := if toSp = SpaceHomeOpponent ∨ variant = VariantTabula then 25 - fr else fr
    match removeFirst (fun r => r == needRoll) rolls with
    | some rs => some rs
    | none => removeFirst (fun r => r > needRoll) rolls
  else
    removeFirst (fun r => r == SpaceDiff fr toSp variant) rolls

/-- `g.DiceRolls()`: the multiset of unused pips.  The Go function returns
`nil` when some pending move cannot be accounted for; every caller only
ranges over the result, so `nil` is embedded as the empty list. -/
def Game.diceRolls (g : Game) : List Int :=
  let rolls := [g.roll1, g.roll2]
  let rolls :=
    if g.variant = VariantTabula then rolls ++ [g.roll3]
    else if g.roll1 = g.roll2 then rolls ++ [g.roll1, g.roll2]
    else rolls
  (g.moves.foldlM (fun rs m => useDiceRoll g.variant m.1 m.2 rs) rolls).getD []

/-- `g.HaveDiceRoll(from, to)`: count of unused pips matching the move. -/
def Game.haveDiceRoll (g : Game) (fr toSp : Int) : Nat :=
  if g.variant = VariantTabula ∧ toSp > 12 ∧ toSp < 25 ∧
      ((g.turn = 1 ∧ ¬g.player1.entered) ∨ (g.turn = 2 ∧ ¬g.player2.entered)) then 0
  else if (toSp = SpaceHomePlayer ∨ toSp = SpaceHomeOpponent) ∧ ¬g.mayBearOff g.turn false then 0
  else
    let diff := SpaceDiff fr toSp g.variant
    if diff = 0 then 0
    else (g.diceRolls.filter (fun r => r == diff)).length

/-- `g.HaveBearOffDiceRoll(diff)`: count of unused pips usable to bear off
over pip distance `diff`; strictly greater pips count only in backgammon. -/
def Game.haveBearOffDiceRoll (g : Game) (diff : Int) : Nat :=
  if diff = 0 then 0
  else (g.diceRolls.filter
    (fun r => r == diff || (r > diff && g.variant == VariantBackgammon))).length

/-- The must-enter branch of `LegalMoves`: entry moves from `barSpace`
into the opposing home quadrant (1…6 in tabula), in iteration order.
The `movesFound` bookkeeping of the Go loop is behind an `if false &&`
guard and therefore dead code, here as in the other emission loops. -/
def Game.entryMoves (g : Game) (barSpace : Int) : List (Int × Int) :=
  let hr := HomeRange (g.opponentPlayer).number g.variant
  let hr := if g.variant = VariantTabula then ((1 : Int), (6 : Int)) else hr
  (IterateSpaces hr.1 hr.2 g.variant).filterMap fun hs =>
    if g.haveDiceRoll barSpace hs.1 = 0 then none
    else if OpponentCheckers (bget g.board hs.1) g.turn ≤ 1 then some (barSpace, hs.1)
    else none

/-- One iteration of the per-space emission loop of `LegalMoves`
(the `else` branch, after bar entry has been ruled out): the bear-off
candidate, if any, followed by the normal forward moves from `space`. -/
def Game.spaceMoves (g : Game) (mayBearOff : Bool) (space : Int) : List (Int × Int) :=
  if space = SpaceBarPlayer ∨ space = SpaceBarOpponent then []
  else
    let homeSpace1 := if g.turn = 2 then SpaceHomeOpponent else SpaceHomePlayer
    let entered1 := if g.turn = 2 then g.player2.entered else g.player1.entered
    if (space = SpaceHomePlayer ∨ space = SpaceHomeOpponent) ∧
        (g.variant = VariantBackgammon ∨ space ≠ homeSpace1 ∨ entered1) then []
    else if PlayerCheckers (bget g.board space) g.turn = 0 then []
    else
      let bearOff :=
        if mayBearOff then
          let homeSpace := if g.turn = 2 then SpaceHomeOpponent else SpaceHomePlayer
          if g.haveBearOffDiceRoll (SpaceDiff space homeSpace g.variant) > 0 then
            let ok :=
              if g.variant = VariantBackgammon ∧ g.haveDiceRoll space homeSpace = 0 then
                let homeEnd := (HomeRange g.turn g.variant).2
                if g.turn = 2 ∧ g.variant ≠ VariantTabula then
                  (intRangeDesc (space - 1) homeEnd).all fun i =>
                    decide (PlayerCheckers (bget g.board i) g.turn = 0)
                else
                  (intRangeAsc (space + 1) homeEnd).all fun i =>
                    decide (PlayerCheckers (bget g.board i) g.turn = 0)
              else true
            if ok then [(space, homeSpace)] else []
          else []
        else []
      let lastSpace : Int := if g.turn = 2 ∨ g.variant = VariantTabula then 25 else 0
      let targets :=
        if space = SpaceHomePlayer then
          IterateSpaces (if g.variant = VariantTabula then 1 else 25) lastSpace g.variant
        else if space = SpaceHomeOpponent then IterateSpaces 1 lastSpace g.variant
        else IterateSpaces space lastSpace g.variant
      bearOff ++ targets.filterMap fun t =>
        if g.haveDiceRoll space t.1 = 0 then none
        else if OpponentCheckers (bget g.board t.1) g.turn ≤ 1 then some (space, t.1)
        else none

/-- The emission phase of `LegalMoves`: entry moves from the bar carrying
a checker of the mover, when such a bar exists, and otherwise the
candidates of every board slot in index order.  The Go code fixes
`mayBearOff` once with `local = false`. -/
def Game.emitMoves (g : Game) : List (Int × Int) :=
  if PlayerCheckers (bget g.board SpaceBarPlayer) g.turn > 0 then
    g.entryMoves SpaceBarPlayer
  else if PlayerCheckers (bget g.board SpaceBarOpponent) g.turn > 0 then
    g.entryMoves SpaceBarOpponent
  else
    let mb := g.mayBearOff g.turn false
    (List.range g.board.length).foldl (fun acc k => acc ++ g.spaceMoves mb (k : Int)) []

/-- The `replaceSpace` closure at the end of `LegalMoves`: rename bar and
home slots to the mover-relative constants. -/
def replaceSpace (turn i : Int) : Int :=
  if turn = 1 ∧ i = SpaceHomeOpponent then SpaceHomePlayer
  else if turn = 1 ∧ i = SpaceBarOpponent then SpaceBarPlayer
  else if turn = 2 ∧ i = SpaceHomePlayer then SpaceHomeOpponent
  else if turn = 2 ∧ i = SpaceBarPlayer then SpaceBarOpponent
  else i

/-- The shape of `_totalMoves` as a function value: game, accumulated
sequence, candidate move, `local`. -/
abbrev TotalT := Game → List (Int × Int) → (Int × Int) → Bool → List (List (Int × Int))

/-- Body of `LegalMoves(local)` given the `_totalMoves` it calls:
emission, the maximum-total-moves filter and the mover-relative renaming.
The Go filter scores each candidate with `len(allMoves[0])`, the length of
the *first* sequence `_totalMoves` returns, and `local` is only forwarded
to `_totalMoves`. -/
def legalCore (tm : TotalT) (g : Game) (lcl : Bool) : List (Int × Int) :=
  if g.winner ≠ 0 ∨ g.roll1 = 0 ∨ g.roll2 = 0 then []
  else
    let moves := g.emitMoves
    let counts : List Nat := moves.map fun m =>
      match tm g g.moves m lcl with
      | [] => 0
      | a :: _ => a.length
    let maxMoves := counts.foldl (fun mx c => if c > mx then c else mx) 0
    let moves :=
      if maxMoves > 1 then
        (moves.zip counts).filterMap fun p => if p.2 ≥ maxMoves then some p.1 else none
      else moves
    moves.map fun m => (replaceSpace g.turn m.1, replaceSpace g.turn m.2)

/-- Body of `g._totalMoves(moves, move, local)` given the `LegalMoves`
and `_totalMoves` it calls: apply `move`, then extend `moves ++ [move]` by
every continuation, keeping a running maximum of the sequence length
exactly as the Go loop does.  The first returned sequence is always the
base `moves ++ [move]` — the Go function returns `allMoves`, whose
deduplicated copy `newMoves` is computed and then discarded (dead code,
omitted here).  When `addMove` rejects `move` the Go code raises a runtime
error; the embedding returns no continuations there. -/
def totalCore (lm : Game → Bool → List (Int × Int)) (tm : TotalT) (g : Game)
    (moves : List (Int × Int)) (move : Int × Int) (lcl : Bool) :
    List (List (Int × Int)) :=
  match g.addMove move with
  | none => []
  | some gc =>
    let newMoves := moves ++ [move]
    let st := (lm gc lcl).foldl (fun st m =>
        (tm gc newMoves m lcl).foldl (fun st2 nm =>
          if nm.length > st2.2 then (st2.1 ++ [nm], nm.length)
          else if nm.length < st2.2 then st2
          else (st2.1 ++ [nm], st2.2)) st)
      ([newMoves], newMoves.length)
    st.1

/-- Fuelled `_totalMoves`: the Go recursion
`_totalMoves → LegalMoves → _totalMoves` adds one pending move per level,
so the fuel only bounds that depth. -/
def totalMovesF : Nat → TotalT
  | 0 => fun _ _ _ _ => []
  | fuel + 1 =>
    totalCore (fun g lcl => legalCore (totalMovesF fuel) g lcl) (totalMovesF fuel)

/-- Fuelled `LegalMoves(local)`. -/
def legalMovesF (fuel : Nat) (g : Game) (lcl : Bool) : List (Int × Int) :=
  legalCore (totalMovesF fuel) g lcl

/-- `g.LegalMoves(local)` with enough fuel: the recursion of the Go code
adds one pending move per level and every pending move consumes one die,
so its depth never exceeds the number of dice (at most four) plus one. -/
def Game.legalMoves (g : Game) (lcl : Bool) : List (Int × Int) :=
  legalMovesF 8 g lcl

/-- Membership test of the `for _, lm := range l` scans of `AddMoves`:
does a pair with both coordinates of `m` occur in `l`? -/
def moveInList (m : Int × Int) (l : List (Int × Int)) : Bool :=
  l.any fun lm => lm.1 == m.1 && lm.2 == m.2

/-- The shape of `ExpandMove` as a function value: game, target move,
current space, accumulated sequence, `local`. -/
abbrev ExpandT := Game → (Int × Int) → Int → List (Int × Int) → Bool → Option (List (Int × Int))

/-- One scan of a `checkMoves` list inside `ExpandMove`, given the
`ExpandMove` it recurses into: either an expanded sequence was found
(`inl`) or the loop ran out, yielding the final value of the mutated
`currentSpace` (`inr`) — the Go loop's `currentSpace` assignment persists
into later iterations and into the second loop.  The result of
`gc.addMove(lm)` is discarded in Go, so a rejected hop recurses on the
unchanged game. -/
def expandScan (em : ExpandT) (g : Game) (move : Int × Int) (lcl : Bool) :
    List (Int × Int) → Int → List (Int × Int) → (List (Int × Int)) ⊕ Int
  | [], currentSpace, _ => .inr currentSpace
  | lm :: rest, currentSpace, moves =>
    if lm.1 ≠ currentSpace then expandScan em g move lcl rest currentSpace moves
    else
      let newMoves := moves ++ [lm]
      if lm.2 = move.2 then .inl newMoves
      else
        match em ((g.addMove lm).getD g) move lm.2 newMoves lcl with
        | some res => .inl res
        | none => expandScan em g move lcl rest lm.2 moves

/-- Fuelled `g.ExpandMove(move, currentSpace, moves, local)`: depth-first
search for a chain of legal hops from `currentSpace` to `move`'s
destination, trying hitting moves first; `none` when the Go function
returns `false`.  Like the Go recursion it terminates because every hop
consumes a die. -/
def expandMoveF : Nat → ExpandT
  | 0 => fun _ _ _ _ _ => none
  | fuel + 1 => fun g move currentSpace moves lcl =>
    let l := g.legalMoves lcl
    let hitMoves := l.filter fun m => OpponentCheckers (bget g.board m.2) g.turn == 1
    match expandScan (expandMoveF fuel) g move lcl hitMoves currentSpace moves with
    | .inl res => some res
    | .inr cs1 =>
      match expandScan (expandMoveF fuel) g move lcl l cs1 moves with
      | .inl res => some res
      | .inr _ => none

/-- The `VALIDATEMOVES` loop of `AddMoves`, partitioning the submitted
moves into the *add* list and the *undo* list; `none` when the Go loop
returns `false`.  The loop never mutates `gameCopy`, which therefore still
equals `g` throughout, and undo candidates are peeled from the pending
list in LIFO order through `validateOffset`. -/
def validateMovesLoop (g : Game) (lcl : Bool) :
    List (Int × Int) → Nat → Option (List (Int × Int) × List (Int × Int))
  | [], _ => some ([], [])
  | mv :: rest, offset =>
    if moveInList mv (g.legalMoves lcl) then
      (validateMovesLoop g lcl rest offset).map fun p => ((mv.1, mv.2) :: p.1, p.2)
    else if g.moves.length > 0 then
      let i : Int := (g.moves.length : Int) - 1 - (offset : Int)
      if i < 0 then none
      else
        let gameMove := g.moves.getD i.toNat (0, 0)
        if mv.1 = gameMove.2 ∧ mv.2 = gameMove.1 then
          (validateMovesLoop g lcl rest (offset + 1)).map fun p =>
            (p.1, (gameMove.2, gameMove.1) :: p.2)
        else
          match expandMoveF 8 g mv mv.1 [] lcl with
          | some expanded =>
            (validateMovesLoop g lcl rest offset).map fun p => (expanded ++ p.1, p.2)
          | none => none
    else
      match expandMoveF 8 g mv mv.1 [] lcl with
      | some expanded =>
        (validateMovesLoop g lcl rest offset).map fun p => (expanded ++ p.1, p.2)
      | none => none

/-- The `ADDMOVES` loop of `AddMoves`: re-check each add against the
current `LegalMoves` of the evolving copy, apply it with `addMove`
(failure aborts the whole call), track whether some applied move targeted
a home slot; a move no longer contained in `LegalMoves` is skipped
silently. -/
def applyAddLoop (gc : Game) (checkWin : Bool) (adds : List (Int × Int)) (lcl : Bool) :
    Option (Game × Bool) :=
  match adds with
  | [] => some (gc, checkWin)
  | mv :: rest =>
    if moveInList mv (gc.legalMoves lcl) then
      match gc.addMove mv with
      | none => none
      | some gc' =>
        applyAddLoop gc' (checkWin ∨ mv.2 = SpaceHomePlayer ∨ mv.2 = SpaceHomeOpponent)
          rest lcl
    else applyAddLoop gc checkWin rest lcl

/-- The undo loop of `AddMoves`: each undo move must reverse the newest
pending move; the pre-move board and `Entered` snapshots are copied back
and both stacks and the pending list are truncated.  `none` when the Go
loop returns `false`. -/
def applyUndoLoop (gc : Game) (undos : List (Int × Int)) : Option Game :=
  match undos with
  | [] => some gc
  | mv :: rest =>
    if gc.moves.length > 0 then
      let i := gc.moves.length - 1
      let gameMove := gc.moves.getD i (0, 0)
      if mv.1 = gameMove.2 ∧ mv.2 = gameMove.1 then
        applyUndoLoop { gc with
          board := copyInto gc.board (gc.boardStates.getD i [])
          player1 := { gc.player1 with entered := (gc.enteredStates.getD i (false, false)).1 }
          player2 := { gc.player2 with entered := (gc.enteredStates.getD i (false, false)).2 }
          boardStates := gc.boardStates.take i
          enteredStates := gc.enteredStates.take i
          moves := gc.moves.take i } rest
      else none
    else none

/-- The win check at the end of `AddMoves`: if some applied move targeted
a home slot and the mover has no checker left on the points (and, outside
backgammon, is entered), set `Winner` to the mover. -/
def winStep (lcl : Bool) (checkWin : Bool) (gc : Game) : Game :=
  if checkWin then
    let entered := if ¬lcl ∧ gc.turn = 2 then gc.player2.entered else gc.player1.entered
    let foundChecker :=
      if gc.variant ≠ VariantBackgammon ∧ ¬entered then true
      else (List.range 24).any fun k => PlayerCheckers (bget gc.board ((k : Int) + 1)) gc.turn ≠ 0
    if ¬foundChecker then { gc with winner := gc.turn } else gc
  else gc

/-- `g.AddMoves(moves, local)`: the commit operation.  Returns the Go
pair `(ok, applied moves)` together with the resulting game; every
failure path leaves the receiver untouched, so it returns `g` itself
there.  On success the copy's board, pending moves, `Entered` flags and
both reversal stacks are adopted and the win check runs. -/
def Game.addMoves (g : Game) (ms : List (Int × Int)) (lcl : Bool) :
    Bool × Game × List (Int × Int) :=
  if g.player1.name = "" ∨ g.player2.name = "" ∨ g.winner ≠ 0 then (false, g, [])
  else
    match validateMovesLoop g lcl ms 0 with
    | none => (false, g, [])
    | some (adds, undos) =>
      if adds.length ≠ 0 ∧ undos.length ≠ 0 then (false, g, [])
      else
        match applyAddLoop g false adds lcl with
        | none => (false, g, [])
        | some (gc, checkWin) =>
          match applyUndoLoop gc undos with
          | none => (false, g, [])
          | some gc2 =>
            (true, winStep lcl checkWin gc2, if adds.length > 0 then adds else undos)

/-- The server-side session record (`serverGame`), restricted to the
fields the game-logic core reads: seat occupancy, the allowed-names latch
and the wrapped game.  Client identities, passwords and time stamps are
external to the core. -/
structure ServerGame where
  client1 : Bool
  client2 : Bool
  allowedSet : Bool
  game : Game
deriving Repr, DecidableEq

/-- `g.roll(player)`.  The two values `randInt(6)+1` would produce are
passed in as `d1` and `d2` (randomness is an external input).  In turn 0
each seat rolls once for the initiative contest; afterwards only the turn
player may roll and only when both dice are zero. -/
def ServerGame.roll (sg : ServerGame) (player : Int) (d1 d2 : Int) : Bool × ServerGame :=
  if ¬sg.client1 ∨ ¬sg.client2 ∨ sg.game.winner ≠ 0 then (false, sg)
  else if sg.game.turn = 0 then
    if player = 1 then
      if sg.game.roll1 ≠ 0 then (false, sg)
      else (true, { sg with game := { sg.game with roll1 := d1 }, allowedSet := true })
    else
      if sg.game.roll2 ≠ 0 then (false, sg)
      else (true, { sg with game := { sg.game with roll2 := d1 }, allowedSet := true })
  else if player ≠ sg.game.turn ∨ sg.game.roll1 ≠ 0 ∨ sg.game.roll2 ≠ 0 then (false, sg)
  else (true, { sg with game := { sg.game with roll1 := d1, roll2 := d2 } })

/-- Total number of checkers of `player` on the board: the sum of
`PlayerCheckers` over all slots. -/
def sideCount (b : List Int) (player : Int) : Int :=
  (b.map (fun c => PlayerCheckers c player)).sum

/-- Sign-canonical bar slots: Player 1's hit checkers sit on
`SpaceBarPlayer` (positive), Player 2's on `SpaceBarOpponent` (negative).
`addMove` only ever hits into these slots with these signs. -/
def BarsCanonical (b : List Int) : Prop :=
  bget b SpaceBarPlayer ≥ 0 ∧ bget b SpaceBarOpponent ≤ 0

/-- A zeroed 28-slot board with the given slots set. -/
def mkBoard (l : List (Int × Int)) : List Int :=
  l.foldl (fun b p => bset b p.1 p.2) (List.replicate 28 0)

/-- Base state of the concrete scenarios below: a backgammon game with
both seats named, both players entered, Player 1 to move and no dice
rolled yet. -/
def baseGame : Game :=
  { player1 := ⟨1, "alice", true⟩, player2 := ⟨2, "bob", true⟩,
    variant := VariantBackgammon, board := List.replicate 28 0,
    turn := 1, roll1 := 0, roll2 := 0, roll3 := 0,
    moves := [], winner := 0, points := 1, doubleValue := 1, doublePlayer := 0,
    doubleOffered := false, reroll := false, boardStates := [], enteredStates := [] }

/-- Scenario for the must-play-maximum-pips rule: Player 1 has checkers
on 24 and 2, Player 2 blocks point 21, the roll is 1-2.  Playing `24→23`
strands the 2-pip die (23→21 is blocked, 2→0 is no bear-off), while
`24→22` or `2→1` still allow a second move. -/
def gMaxPips : Game :=
  { baseGame with
    board := mkBoard [(24, 1), (2, 1), (21, -2)], roll1 := 1, roll2 := 2 }

/-- Scenario for a winning bear-off: Player 1's last checker sits on
point 1 with roll 1-2, so `1→0` bears off and wins. -/
def gBearOffWin : Game :=
  { baseGame with
    board := mkBoard [(1, 1)], roll1 := 1, roll2 := 2 }

/-- Acey-deucey scenario: Player 1 still has one checker on the home
tray, and the (corrupt, but type-correct) roll 22-3 lets it enter at
point 3 via pip `25 - 3 = 22`.  Afterwards Player 1 is entered with the
lone checker on point 3, so the reversed move `3→0` is itself a legal
bear-off of the intermediate state. -/
def gAceyEntry : Game :=
  { baseGame with
    variant := VariantAceyDeucey,
    player1 := ⟨1, "alice", false⟩, player2 := ⟨2, "bob", false⟩,
    board := mkBoard [(0, 1)], roll1 := 22, roll2 := 3 }

/-- Acey-deucey scenario with a pending bear-off move `2→0` whose exact
pip 2 is not among the rolled 5-3. -/
def gAceyPending : Game :=
  { baseGame with
    variant := VariantAceyDeucey,
    board := mkBoard [(8, 1)], roll1 := 5, roll2 := 3, moves := [(2, 0)] }

/-- Mid-turn scenario: the move `10→8` has been played (die 2 used), the
die 1 remains, checkers of Player 1 sit on 8 and 5. -/
def gMidTurn : Game :=
  { baseGame with
    board := mkBoard [(8, 1), (5, 1)], roll1 := 2, roll2 := 1,
    moves := [(10, 8)], boardStates := [mkBoard [(10, 1), (5, 1)]],
    enteredStates := [(true, true)] }

/-- A finished game: Player 1 has won. -/
def gWon : Game :=
  { baseGame with
    board := mkBoard [(3, -1)], roll1 := 3, roll2 := 4, winner := 1 }

/-- The session wrapping `gWon`, both seats occupied. -/
def sgWon : ServerGame := ⟨true, true, true, gWon⟩

/-- A tower position with all 30 checkers on the board: Player 1's 15 on
point 24, Player 2's 15 on point 1, roll 1-2. -/
def gTower : Game :=
  { baseGame with
    board := mkBoard [(24, 15), (1, -15)], roll1 := 1, roll2 := 2 }

/-- A hit scenario: Player 1 on 8, a lone Player 2 blot on 5, roll 3-1. -/
def gHit : Game :=
  { baseGame with
    board := mkBoard [(8, 1), (5, -1)], roll1 := 3, roll2 := 1 }

theorem bset_length (b : List Int) (i v : Int) : (bset b i v).length = b.length := by
  simp [bset]

theorem bget_bset_self (b : List Int) (i v : Int) (h : i.toNat < b.length) :
    bget (bset b i v) i = v := by
  simp [bget, bset, List.getD_eq_getElem?_getD, List.getElem?_set_eq_of_lt _ h]

theorem bget_bset_ne (b : List Int) (i j v : Int) (h : i.toNat ≠ j.toNat) :
    bget (bset b i v) j = bget b j := by
  simp [bget, bset, List.getD_eq_getElem?_getD, List.getElem?_set_ne h]

/-- C9: for every valid space `s` (0 ≤ s ≤ 27) and every variant,
applying the Player 2 perspective flip twice is the identity:
`FlipSpace (FlipSpace s 2 v) 2 v = s`. -/
theorem flipSpace_involution :
    ∀ s : Fin 28, ∀ v : Fin 3,
      FlipSpace (FlipSpace (s.val : Int) 2 (v.val : Int)) 2 (v.val : Int) = (s.val : Int) := by
  decide

/-- C8 counterexample: the home-to-home pairing from `SpaceHomePlayer`
to `SpaceHomeOpponent` is mapped to 25, not 0 (backgammon shown; the
same value results in every variant). -/
theorem spaceDiff_home_to_home_counterexample :
    SpaceDiff SpaceHomePlayer SpaceHomeOpponent VariantBackgammon = 25 ∧
      ¬SpaceDiff SpaceHomePlayer SpaceHomeOpponent VariantBackgammon = 0 := by
  decide

/-- C8 (amended): for every variant and all slots, `SpaceDiff` returns 0
whenever the destination is a bar slot; among the home-to-home pairings
only `25→25` (every variant), `0→0` (backgammon and acey-deucey) and
`25→0` (tabula) return 0 — the remaining home-to-home pairings return
25. -/
theorem spaceDiff_disallowed_pairings :
    ∀ fr : Fin 28, ∀ v : Fin 3,
      SpaceDiff (fr.val : Int) SpaceBarPlayer (v.val : Int) = 0 ∧
      SpaceDiff (fr.val : Int) SpaceBarOpponent (v.val : Int) = 0 ∧
      SpaceDiff SpaceHomeOpponent SpaceHomeOpponent (v.val : Int) = 0 ∧
      SpaceDiff SpaceHomePlayer SpaceHomePlayer (v.val : Int) =
        (if (v.val : Int) = VariantTabula then 25 else 0) ∧
      SpaceDiff SpaceHomePlayer SpaceHomeOpponent (v.val : Int) = 25 ∧
      SpaceDiff SpaceHomeOpponent SpaceHomePlayer (v.val : Int) =
        (if (v.val : Int) = VariantTabula then 0 else 25) := by
  decide

/-- C5: a nonzero `Winner` freezes the game: `LegalMoves` is empty (for
every fuel), `AddMoves` fails and returns the game unchanged, and the
session's `roll` returns `false` leaving the session unchanged. -/
theorem winner_freezes (g : Game) (fuel : Nat) (lcl : Bool) (ms : List (Int × Int))
    (sg : ServerGame) (player d1 d2 : Int)
    (hw : g.winner ≠ 0) (hsg : sg.game = g) :
    legalMovesF fuel g lcl = [] ∧ g.addMoves ms lcl = (false, g, []) ∧
      sg.roll player d1 d2 = (false, sg) := by
  refine ⟨?_, ?_, ?_⟩
  · simp [legalMovesF, legalCore, hw]
  · simp [Game.addMoves, hw]
  · simp [ServerGame.roll, hsg, hw]

/-- C5 witness: the frozen game `gWon` at fuel 8, an attempted bear-off
and an attempted roll. -/
theorem winner_freezes_witness :
    legalMovesF 8 gWon false = [] ∧ gWon.addMoves [(3, 2)] false = (false, gWon, []) ∧
      sgWon.roll 1 3 4 = (false, sgWon) :=
  winner_freezes gWon 8 false [(3, 2)] sgWon 1 3 4 (by decide) rfl

/-- C10: `AddMoves` fails and leaves the game unchanged whenever either
player's name is empty. -/
theorem addMoves_requires_names (g : Game) (ms : List (Int × Int)) (lcl : Bool)
    (h : g.player1.name = "" ∨ g.player2.name = "") :
    g.addMoves ms lcl = (false, g, []) := by
  rcases h with h | h <;> simp [Game.addMoves, h]

/-- C10 witness: the position `gMaxPips` with Player 2's name blanked;
the submitted move is contained in `LegalMoves`, yet `AddMoves` fails. -/
theorem addMoves_requires_names_witness :
    moveInList (2, 1) (({ gMaxPips with player2 := ⟨2, "", true⟩ } : Game).legalMoves false) = true ∧
      ({ gMaxPips with player2 := ⟨2, "", true⟩ } : Game).addMoves [(2, 1)] false =
        (false, { gMaxPips with player2 := ⟨2, "", true⟩ }, []) :=
  ⟨by decide, addMoves_requires_names _ [(2, 1)] false (Or.inr rfl)⟩

/-- C4 counterexample: in the acey-deucey game `gAceyPending` the pending
bear-off move `2→0` has no exactly matching pip among the rolled 5-3,
yet `DiceRolls` consumes the strictly greater pip 5 and returns `[3]` —
the claim would require the move to be unaccountable outside
backgammon. -/
theorem diceRolls_overshoot_acey_counterexample :
    gAceyPending.variant = VariantAceyDeucey ∧ gAceyPending.moves = [(2, 0)] ∧
      gAceyPending.roll1 = 5 ∧ gAceyPending.roll2 = 3 ∧
      gAceyPending.diceRolls = [3] := by
  decide

/-- C4 (amended): when `DiceRolls` accounts for a pending move into a
home slot, an exactly matching pip is consumed when one exists, and
otherwise a strictly greater pip is consumed when one exists — in every
variant, not only in backgammon. -/
theorem useDiceRoll_bearoff_consumption (variant fr toSp : Int) (rolls l : List Int)
    (hh : toSp = SpaceHomePlayer ∨ toSp = SpaceHomeOpponent) :
    (removeFirst (fun r =>
        r == (if toSp = SpaceHomeOpponent ∨ variant = VariantTabula then 25 - fr else fr))
        rolls = some l →
      useDiceRoll variant fr toSp rolls = some l) ∧
    (removeFirst (fun r =>
        r == (if toSp = SpaceHomeOpponent ∨ variant = VariantTabula then 25 - fr else fr))
        rolls = none →
      removeFirst (fun r =>
        r > (if toSp = SpaceHomeOpponent ∨ variant = VariantTabula then 25 - fr else fr))
        rolls = some l →
      useDiceRoll variant fr toSp rolls = some l) := by
  have hor : toSp = SpaceHomePlayer ∨ toSp = SpaceHomeOpponent := hh
  constructor
  · intro h1
    simp [useDiceRoll, if_pos hor, h1]
  · intro h1 h2
    simp [useDiceRoll, if_pos hor, h1, h2]

/-- C4 witness: the amended consumption at the acey-deucey instance of
`gAceyPending`: no exact pip 2 among `[5, 3]`, the greater pip 5 is
consumed. -/
theorem useDiceRoll_bearoff_consumption_witness :
    useDiceRoll VariantAceyDeucey 2 SpaceHomePlayer [5, 3] = some [3] :=
  (useDiceRoll_bearoff_consumption VariantAceyDeucey 2 SpaceHomePlayer [5, 3] [3]
    (Or.inl rfl)).2 (by decide) (by decide)

/-- C6: every failing `AddMoves` call leaves the game untouched, and a
call whose validated partition contains both an add move (present in the
current `LegalMoves`) and an undo move (reversing a pending move) always
fails. -/
theorem addMoves_failure_unchanged (g : Game) (ms : List (Int × Int)) (lcl : Bool) :
    ((g.addMoves ms lcl).1 = false → (g.addMoves ms lcl).2.1 = g) ∧
    (∀ adds undos, validateMovesLoop g lcl ms 0 = some (adds, undos) →
      adds ≠ [] → undos ≠ [] → g.addMoves ms lcl = (false, g, [])) := by
  constructor
  · have hd : (g.addMoves ms lcl).1 = true ∨ (g.addMoves ms lcl).2.1 = g := by
      unfold Game.addMoves
      split
      · exact Or.inr rfl
      · split
        · exact Or.inr rfl
        · split
          · exact Or.inr rfl
          · split
            · exact Or.inr rfl
            · split
              · exact Or.inr rfl
              · exact Or.inl rfl
    intro hfail
    rcases hd with hd | hd
    · rw [hfail] at hd; exact absurd hd (by decide)
    · exact hd
  · intro adds undos hval hadds hundos
    unfold Game.addMoves
    split
    · rfl
    · simp only [hval]
      have hne : adds.length ≠ 0 ∧ undos.length ≠ 0 := by
        constructor <;> simpa [List.length_eq_zero]
      rw [if_pos hne]

/-- C6 witness: the mid-turn position `gMidTurn` with the mixed call
containing the add move `5→4` (in `LegalMoves`) and the undo move
`8→10` (reversing the pending `10→8`): the call fails and the game is
unchanged. -/
theorem addMoves_failure_unchanged_witness :
    gMidTurn.addMoves [(5, 4), (8, 10)] false = (false, gMidTurn, []) :=
  (addMoves_failure_unchanged gMidTurn [(5, 4), (8, 10)] false).2
    [(5, 4)] [(8, 10)] (by decide) (by decide) (by decide)

theorem PlayerCheckers_one (c : Int) : PlayerCheckers c 1 = if c > 0 then c else 0 := by
  simp [PlayerCheckers]

theorem PlayerCheckers_two (c : Int) : PlayerCheckers c 2 = if c < 0 then -c else 0 := by
  simp [PlayerCheckers, mul_neg_one]

theorem OpponentCheckers_one (c : Int) : OpponentCheckers c 1 = if c < 0 then -c else 0 := by
  simp [OpponentCheckers, mul_neg_one]

theorem OpponentCheckers_two (c : Int) : OpponentCheckers c 2 = if c > 0 then c else 0 := by
  simp [OpponentCheckers]

theorem Game.setEntered_board (g : Game) : g.setEntered.board = g.board := by
  unfold Game.setEntered; split_ifs <;> rfl

/-- C1 (code bug): in `gMaxPips` the candidate `24→23` only reaches move
sequences of length 1 while `24→22` and `2→1` reach length 2, yet
`LegalMoves` returns all three candidates: its filter scores every
candidate with `len(allMoves[0])`, the length of the *first* sequence
`_totalMoves` returns, which is always the base sequence, so the
maximum-pips filter never removes anything. -/
theorem legalMoves_keeps_short_candidate :
    gMaxPips.legalMoves false = [(2, 1), (24, 23), (24, 22)] ∧
      ((totalMovesF 8 gMaxPips gMaxPips.moves (24, 23) false).map List.length).maximum =
        some 1 ∧
      ((totalMovesF 8 gMaxPips gMaxPips.moves (24, 22) false).map List.length).maximum =
        some 2 ∧
      ((totalMovesF 8 gMaxPips gMaxPips.moves (2, 1) false).map List.length).maximum =
        some 2 := by
  decide

/-- C7: when an applied move's destination point (1…24) holds exactly one
opposing checker, the single `addMove` update leaves exactly one mover
checker and no opposing checker on the destination and moves the
displaced checker to the mover's opponent-bar slot, raising the opposing
side's checker count there by one; moreover a slot value can never count
checkers of both players at once. -/
theorem addMove_hit (g : Game) (m : Int × Int)
    (ht : g.turn = 1 ∨ g.turn = 2)
    (hlen : g.board.length = 28)
    (hd1 : 1 ≤ m.2) (hd2 : m.2 ≤ 24)
    (hoc : OpponentCheckers (bget g.board m.2) g.turn = 1)
    (hsrc : PlayerCheckers (bget g.board m.1) g.turn > 0)
    (hbar : BarsCanonical g.board) :
    ∃ g', g.addMove m = some g' ∧
      PlayerCheckers (bget g'.board m.2) g.turn = 1 ∧
      OpponentCheckers (bget g'.board m.2) g.turn = 0 ∧
      PlayerCheckers (bget g'.board (if g.turn = 2 then SpaceBarPlayer else SpaceBarOpponent))
          (if g.turn = 2 then 1 else 2) =
        PlayerCheckers (bget g.board (if g.turn = 2 then SpaceBarPlayer else SpaceBarOpponent))
          (if g.turn = 2 then 1 else 2) + 1 ∧
      (∀ c : Int, ¬(PlayerCheckers c 1 > 0 ∧ PlayerCheckers c 2 > 0)) := by
  have hsingle : ∀ c : Int, ¬(PlayerCheckers c 1 > 0 ∧ PlayerCheckers c 2 > 0) := by
    intro c hc
    rw [PlayerCheckers_one] at hc
    rw [PlayerCheckers_two] at hc
    obtain ⟨h1, h2⟩ := hc
    split_ifs at h1 h2 <;> omega
  obtain ⟨hbarP, hbarO⟩ := hbar
  unfold SpaceBarPlayer at hbarP ⊢
  unfold SpaceBarOpponent at hbarO ⊢
  cases haddEq : g.addMove m with
  | none =>
    exfalso
    simp only [Game.addMove, hoc] at haddEq
    exact Option.noConfusion haddEq
  | some gn =>
    refine ⟨gn, rfl, ?_⟩
    rcases ht with ht | ht
    · -- Player 1 to move
      rw [ht] at hoc hsrc
      have hc2 : bget g.board m.2 = -1 := by
        have h := hoc; rw [OpponentCheckers_one] at h; split_ifs at h <;> omega
      have hb1 : 0 < bget g.board m.1 := by
        have h := hsrc; rw [PlayerCheckers_one] at h; split_ifs at h <;> omega
      have hne12 : m.1.toNat ≠ m.2.toNat := by
        intro h; unfold bget at hb1 hc2; rw [h] at hb1; omega
      have hne127 : m.1.toNat ≠ (27 : Int).toNat := by
        intro h; unfold bget at hb1 hbarO; rw [h] at hb1; omega
      have hne227 : (27 : Int).toNat ≠ m.2.toNat := by omega
      have h2lt : m.2.toNat < g.board.length := by omega
      have h27lt : (27 : Int).toNat < g.board.length := by omega
      have hboard : gn.board =
          bset (bset (bset g.board m.1 (bget g.board m.1 - 1)) m.2 1) 27
            (bget (bset (bset g.board m.1 (bget g.board m.1 - 1)) m.2 1) 27 + -1) := by
        have h2 := haddEq
        simp only [Game.addMove, hoc, ht, SpaceBarPlayer, SpaceBarOpponent] at h2
        norm_num at h2
        rw [← h2, Game.setEntered_board]
      have e2 : bget gn.board m.2 = 1 := by
        rw [hboard, bget_bset_ne _ _ _ _ hne227, bget_bset_self]
        all_goals try simp only [bset_length]
        all_goals omega
      have e27 : bget gn.board 27 = bget g.board 27 - 1 := by
        rw [hboard, bget_bset_self, bget_bset_ne _ _ _ _ (Ne.symm hne227),
          bget_bset_ne _ _ _ _ hne127]
        all_goals try simp only [bset_length]
        all_goals omega
      rw [ht]
      simp only [if_neg (show ¬((1 : Int) = 2) by norm_num)]
      refine ⟨by rw [e2]; decide, by rw [e2]; decide, ?_, hsingle⟩
      rw [e27, PlayerCheckers_two, PlayerCheckers_two]
      split_ifs <;> omega
    · -- Player 2 to move
      rw [ht] at hoc hsrc
      have hc2 : bget g.board m.2 = 1 := by
        have h := hoc; rw [OpponentCheckers_two] at h; split_ifs at h <;> omega
      have hb1 : bget g.board m.1 < 0 := by
        have h := hsrc; rw [PlayerCheckers_two] at h; split_ifs at h <;> omega
      have hne12 : m.1.toNat ≠ m.2.toNat := by
        intro h; unfold bget at hb1 hc2; rw [h] at hb1; omega
      have hne126 : m.1.toNat ≠ (26 : Int).toNat := by
        intro h; unfold bget at hb1 hbarP; rw [h] at hb1; omega
      have hne226 : (26 : Int).toNat ≠ m.2.toNat := by omega
      have h2lt : m.2.toNat < g.board.length := by omega
      have h26lt : (26 : Int).toNat < g.board.length := by omega
      have hboard : gn.board =
          bset (bset (bset g.board m.1 (bget g.board m.1 + 1)) m.2 (-1)) 26
            (bget (bset (bset g.board m.1 (bget g.board m.1 + 1)) m.2 (-1)) 26 + 1) := by
        have h2 := haddEq
        simp only [Game.addMove, hoc, ht, SpaceBarPlayer, SpaceBarOpponent] at h2
        norm_num at h2
        rw [← h2, Game.setEntered_board]
      have e2 : bget gn.board m.2 = -1 := by
        rw [hboard, bget_bset_ne _ _ _ _ hne226, bget_bset_self]
        all_goals try simp only [bset_length]
        all_goals omega
      have e26 : bget gn.board 26 = bget g.board 26 + 1 := by
        rw [hboard, bget_bset_self, bget_bset_ne _ _ _ _ (Ne.symm hne226),
          bget_bset_ne _ _ _ _ hne126]
        all_goals try simp only [bset_length]
        all_goals omega
      rw [ht]
      simp only [if_pos (show ((2 : Int) = 2) from rfl), if_true]
      refine ⟨by rw [e2]; decide, by rw [e2]; decide, ?_, hsingle⟩
      rw [e26, PlayerCheckers_one, PlayerCheckers_one]
      split_ifs <;> omega

theorem getD_append_length {α : Type} (xs : List α) (y d : α) :
    (xs ++ [y]).getD xs.length d = y := by
  rw [List.getD_eq_getElem?_getD, List.getElem?_append_right (le_refl _)]
  simp

theorem take_append_length {α : Type} (xs : List α) (y : α) :
    (xs ++ [y]).take xs.length = xs :=
  List.take_left xs [y]

theorem copyInto_eq_src (dst src : List Int) (h : src.length = dst.length) :
    copyInto dst src = src := by
  simp [copyInto, h]

theorem playerEqOfFields (p q : Player) (h1 : p.number = q.number)
    (h2 : p.name = q.name) (h3 : p.entered = q.entered) : p = q := by
  cases p; cases q; simp_all

theorem gameEqOfFields (p q : Game)
    (f1 : p.player1 = q.player1) (f2 : p.player2 = q.player2)
    (f3 : p.variant = q.variant) (f4 : p.board = q.board) (f5 : p.turn = q.turn)
    (f6 : p.roll1 = q.roll1) (f7 : p.roll2 = q.roll2) (f8 : p.roll3 = q.roll3)
    (f9 : p.moves = q.moves) (f10 : p.winner = q.winner) (f11 : p.points = q.points)
    (f12 : p.doubleValue = q.doubleValue) (f13 : p.doublePlayer = q.doublePlayer)
    (f14 : p.doubleOffered = q.doubleOffered) (f15 : p.reroll = q.reroll)
    (f16 : p.boardStates = q.boardStates) (f17 : p.enteredStates = q.enteredStates) :
    p = q := by
  cases p; cases q; simp_all

/-- `winStep` only ever writes the `Winner` field. -/
theorem winStep_fields (lcl cw : Bool) (gc : Game) :
    (winStep lcl cw gc).board = gc.board ∧ (winStep lcl cw gc).moves = gc.moves ∧
    (winStep lcl cw gc).boardStates = gc.boardStates ∧
    (winStep lcl cw gc).enteredStates = gc.enteredStates ∧
    (winStep lcl cw gc).player1 = gc.player1 ∧ (winStep lcl cw gc).player2 = gc.player2 ∧
    (winStep lcl cw gc).variant = gc.variant ∧ (winStep lcl cw gc).turn = gc.turn ∧
    (winStep lcl cw gc).roll1 = gc.roll1 ∧ (winStep lcl cw gc).roll2 = gc.roll2 ∧
    (winStep lcl cw gc).roll3 = gc.roll3 ∧ (winStep lcl cw gc).points = gc.points ∧
    (winStep lcl cw gc).doubleValue = gc.doubleValue ∧
    (winStep lcl cw gc).doublePlayer = gc.doublePlayer ∧
    (winStep lcl cw gc).doubleOffered = gc.doubleOffered ∧
    (winStep lcl cw gc).reroll = gc.reroll := by
  simp only [winStep]
  split_ifs <;> simp

/-- The shape of any successful `addMove`: one pending move and one
snapshot appended, the board rewritten in place (same length), every
other field except the `Entered` flags untouched. -/
theorem addMove_fields (g : Game) (m : Int × Int) (g₁ : Game)
    (ha : g.addMove m = some g₁) :
    g₁.moves = g.moves ++ [(m.1, m.2)] ∧
    g₁.boardStates = g.boardStates ++ [g.board] ∧
    g₁.enteredStates = g.enteredStates ++ [(g.player1.entered, g.player2.entered)] ∧
    g₁.board.length = g.board.length ∧
    g₁.player1.name = g.player1.name ∧ g₁.player1.number = g.player1.number ∧
    g₁.player2.name = g.player2.name ∧ g₁.player2.number = g.player2.number ∧
    g₁.variant = g.variant ∧ g₁.turn = g.turn ∧ g₁.winner = g.winner ∧
    g₁.roll1 = g.roll1 ∧ g₁.roll2 = g.roll2 ∧ g₁.roll3 = g.roll3 ∧
    g₁.points = g.points ∧ g₁.doubleValue = g.doubleValue ∧
    g₁.doublePlayer = g.doublePlayer ∧ g₁.doubleOffered = g.doubleOffered ∧
    g₁.reroll = g.reroll := by
  simp only [Game.addMove] at ha
  split at ha
  · exact absurd ha (by simp)
  · rw [← Option.some.inj ha]
    unfold Game.setEntered
    split_ifs <;> simp [apply_ite List.length, bset_length]

/-- C2 counterexample, two scenarios.  First: in `gBearOffWin` the legal
move `1→0` wins, the first `AddMoves` succeeds and sets `Winner`, so the
reversed call `0→1` fails and the game is not restored.  Second: in
`gAceyEntry` the legal entry `0→3` succeeds leaving `Winner = 0`, but the
reversed move `3→0` is itself contained in the intermediate `LegalMoves`
(a bear-off), so the second call applies it as a new add move instead of
undoing — it succeeds and the game is again not restored. -/
theorem addMoves_undo_counterexample :
    (moveInList (1, 0) (gBearOffWin.legalMoves false) = true ∧
      (gBearOffWin.addMoves [(1, 0)] false).1 = true ∧
      ((gBearOffWin.addMoves [(1, 0)] false).2.1.addMoves [(0, 1)] false).1 = false ∧
      ((gBearOffWin.addMoves [(1, 0)] false).2.1.addMoves [(0, 1)] false).2.1.moves ≠
        gBearOffWin.moves) ∧
    (moveInList (0, 3) (gAceyEntry.legalMoves false) = true ∧
      (gAceyEntry.addMoves [(0, 3)] false).1 = true ∧
      (gAceyEntry.addMoves [(0, 3)] false).2.1.winner = 0 ∧
      moveInList (3, 0) ((gAceyEntry.addMoves [(0, 3)] false).2.1.legalMoves false) = true ∧
      ((gAceyEntry.addMoves [(0, 3)] false).2.1.addMoves [(3, 0)] false).1 = true ∧
      ((gAceyEntry.addMoves [(0, 3)] false).2.1.addMoves [(3, 0)] false).2.1.moves ≠
        gAceyEntry.moves) := by
  decide

/-- C2 (amended): for every game `g` whose reversal stacks are aligned
with the pending-move list (spec invariant 3) and every `m` in
`g.LegalMoves`, if `AddMoves [m]` succeeds, the resulting game has
`Winner = 0`, and the reversed move is not itself contained in the
intermediate `LegalMoves`, then the follow-up `AddMoves` with the
reversed move succeeds and restores the game exactly — the 28-slot
board, both `Entered` flags, the pending `Moves` list and both reversal
stacks (indeed the whole record). -/
theorem addMoves_add_then_undo (g : Game) (m : Int × Int) (lcl : Bool) (g' : Game)
    (h1 : moveInList m (g.legalMoves lcl) = true)
    (h2 : g.addMoves [m] lcl = (true, g', [m]))
    (h3 : g'.winner = 0)
    (h4 : moveInList (m.2, m.1) (g'.legalMoves lcl) = false)
    (hS1 : g.boardStates.length = g.moves.length)
    (hS2 : g.enteredStates.length = g.moves.length) :
    g'.addMoves [(m.2, m.1)] lcl = (true, g, [(m.2, m.1)]) := by
  -- The first call passed the opening guard.
  have hg : ¬(g.player1.name = "" ∨ g.player2.name = "" ∨ g.winner ≠ 0) := by
    intro hcon
    unfold Game.addMoves at h2
    rw [if_pos hcon] at h2
    simp at h2
  -- Validation of the first call: one add move, no undo moves.
  have hval : validateMovesLoop g lcl [m] 0 = some ([m], []) := by
    unfold validateMovesLoop
    rw [h1]
    simp [validateMovesLoop]
  -- The applied `addMove` must have succeeded.
  cases ha : g.addMove m with
  | none =>
    exfalso
    unfold Game.addMoves at h2
    rw [if_neg hg, hval] at h2
    simp only [List.length_cons, List.length_nil] at h2
    rw [if_neg (by simp)] at h2
    unfold applyAddLoop at h2
    rw [h1, ha] at h2
    simp at h2
  | some g₁ =>
    have heq : g.addMoves [m] lcl =
        (true, winStep lcl (decide (m.2 = SpaceHomePlayer ∨ m.2 = SpaceHomeOpponent)) g₁,
          [m]) := by
      unfold Game.addMoves
      rw [if_neg hg, hval]
      simp only [List.length_cons, List.length_nil]
      rw [if_neg (by simp)]
      unfold applyAddLoop
      rw [h1, ha]
      unfold applyAddLoop
      unfold applyUndoLoop
      simp
    have hg' : g' = winStep lcl
        (decide (m.2 = SpaceHomePlayer ∨ m.2 = SpaceHomeOpponent)) g₁ := by
      have := h2.symm.trans heq
      exact congrArg (fun p => p.2.1) this
    obtain ⟨w1, w2, w3, w4, w5, w6, w7, w8, w9, w10, w11, w12, w13, w14, w15, w16⟩ :=
      winStep_fields lcl (decide (m.2 = SpaceHomePlayer ∨ m.2 = SpaceHomeOpponent)) g₁
    obtain ⟨a1, a2, a3, a4, a5, a6, a7, a8, a9, a10, a11, a12, a13, a14, a15, a16, a17,
      a18, a19⟩ := addMove_fields g m g₁ ha
    -- Field bookkeeping for the intermediate game.
    have e_moves : g'.moves = g.moves ++ [m] := by rw [hg', w2, a1]
    have e_bs : g'.boardStates = g.boardStates ++ [g.board] := by rw [hg', w3, a2]
    have e_es : g'.enteredStates =
        g.enteredStates ++ [(g.player1.entered, g.player2.entered)] := by rw [hg', w4, a3]
    have e_blen : g'.board.length = g.board.length := by rw [hg', w1, a4]
    have e_p1n : g'.player1.name = g.player1.name := by rw [hg', w5, a5]
    have e_p1num : g'.player1.number = g.player1.number := by rw [hg', w5, a6]
    have e_p2n : g'.player2.name = g.player2.name := by rw [hg', w6, a7]
    have e_p2num : g'.player2.number = g.player2.number := by rw [hg', w6, a8]
    have e_var : g'.variant = g.variant := by rw [hg', w7, a9]
    have e_turn : g'.turn = g.turn := by rw [hg', w8, a10]
    have e_r1 : g'.roll1 = g.roll1 := by rw [hg', w9, a12]
    have e_r2 : g'.roll2 = g.roll2 := by rw [hg', w10, a13]
    have e_r3 : g'.roll3 = g.roll3 := by rw [hg', w11, a14]
    have e_pts : g'.points = g.points := by rw [hg', w12, a15]
    have e_dv : g'.doubleValue = g.doubleValue := by rw [hg', w13, a16]
    have e_dp : g'.doublePlayer = g.doublePlayer := by rw [hg', w14, a17]
    have e_do : g'.doubleOffered = g.doubleOffered := by rw [hg', w15, a18]
    have e_rr : g'.reroll = g.reroll := by rw [hg', w16, a19]
    have hgw : g.winner = 0 := by
      rcases Decidable.em (g.winner = 0) with h | h
      · exact h
      · exact absurd (Or.inr (Or.inr h)) hg
    -- Guard of the second call.
    have hg2 : ¬(g'.player1.name = "" ∨ g'.player2.name = "" ∨ g'.winner ≠ 0) := by
      rw [e_p1n, e_p2n, h3]
      intro hcon
      rcases hcon with h | h | h
      · exact hg (Or.inl h)
      · exact hg (Or.inr (Or.inl h))
      · exact h rfl
    -- Validation of the second call: one undo move, no add moves.
    have hlen : g'.moves.length = g.moves.length + 1 := by
      rw [e_moves]; simp
    have hgetD : g'.moves.getD (g'.moves.length - 1) (0, 0) = m := by
      rw [e_moves]
      have hx : (g.moves ++ [m]).length - 1 = g.moves.length := by simp
      rw [hx]
      exact getD_append_length g.moves m (0, 0)
    have hval2 : validateMovesLoop g' lcl [(m.2, m.1)] 0 = some ([], [(m.2, m.1)]) := by
      unfold validateMovesLoop
      rw [h4]
      simp only [Bool.false_eq_true, if_false]
      rw [if_pos (by rw [hlen]; omega)]
      have hi : ((g'.moves.length : Int) - 1 - ((0 : Nat) : Int)) = ((g.moves.length : Int)) := by
        rw [hlen]; push_cast; ring
      rw [if_neg (by rw [hi]; omega)]
      have hgm : g'.moves.getD ((g'.moves.length : Int) - 1 - ((0 : Nat) : Int)).toNat (0, 0) =
          m := by
        rw [hi, e_moves]
        have hx := getD_append_length g.moves m (0, 0)
        simp only [Int.toNat_natCast]
        exact hx
      rw [hgm]
      rw [if_pos ⟨rfl, rfl⟩]
      simp [validateMovesLoop]
    -- The undo restores every field.
    have hi : g'.moves.length - 1 = g.moves.length := by rw [hlen]; omega
    have hgetBS : g'.boardStates.getD (g'.moves.length - 1) [] = g.board := by
      rw [hi, e_bs, ← hS1]
      exact getD_append_length g.boardStates g.board []
    have hgetES : g'.enteredStates.getD (g'.moves.length - 1) (false, false) =
        (g.player1.entered, g.player2.entered) := by
      rw [hi, e_es, ← hS2]
      exact getD_append_length g.enteredStates (g.player1.entered, g.player2.entered)
        (false, false)
    have hundo : applyUndoLoop g' [(m.2, m.1)] = some g := by
      simp only [applyUndoLoop]
      rw [if_pos (show g'.moves.length > 0 by rw [hlen]; omega), hgetD,
        if_pos ⟨rfl, rfl⟩]
      refine congrArg some (gameEqOfFields _ _ ?_ ?_ ?_ ?_ ?_ ?_ ?_ ?_ ?_ ?_ ?_ ?_ ?_ ?_
        ?_ ?_ ?_)
      · show { g'.player1 with
          entered := (g'.enteredStates.getD (g'.moves.length - 1) (false, false)).1 } =
            g.player1
        rw [hgetES]
        exact playerEqOfFields _ _ e_p1num e_p1n rfl
      · show { g'.player2 with
          entered := (g'.enteredStates.getD (g'.moves.length - 1) (false, false)).2 } =
            g.player2
        rw [hgetES]
        exact playerEqOfFields _ _ e_p2num e_p2n rfl
      · exact e_var
      · show copyInto g'.board (g'.boardStates.getD (g'.moves.length - 1) []) = g.board
        rw [hgetBS]
        exact copyInto_eq_src g'.board g.board e_blen.symm
      · exact e_turn
      · exact e_r1
      · exact e_r2
      · exact e_r3
      · show g'.moves.take (g'.moves.length - 1) = g.moves
        rw [hi, e_moves]
        exact take_append_length g.moves m
      · rw [h3, hgw]
      · exact e_pts
      · exact e_dv
      · exact e_dp
      · exact e_do
      · exact e_rr
      · show g'.boardStates.take (g'.moves.length - 1) = g.boardStates
        rw [hi, e_bs, ← hS1]
        exact take_append_length g.boardStates g.board
      · show g'.enteredStates.take (g'.moves.length - 1) = g.enteredStates
        rw [hi, e_es, ← hS2]
        exact take_append_length g.enteredStates (g.player1.entered, g.player2.entered)
    -- Assemble the second call.
    unfold Game.addMoves
    rw [if_neg hg2, hval2]
    simp [applyAddLoop, hundo, winStep]

/-- C2 witness: in the mid-turn position `gMidTurn` the add move `5→4`
followed by the reversed `4→5` restores the game record exactly. -/
theorem addMoves_add_then_undo_witness :
    ((gMidTurn.addMoves [(5, 4)] false).2.1.addMoves [(4, 5)] false) =
      (true, gMidTurn, [(4, 5)]) :=
  addMoves_add_then_undo gMidTurn (5, 4) false ((gMidTurn.addMoves [(5, 4)] false).2.1)
    (by decide) (by decide) (by decide) (by decide) (by decide) (by decide)

/-- C7 witness: the hit `8→5` in `gHit`. -/
theorem addMove_hit_witness :
    ∃ g', gHit.addMove (8, 5) = some g' ∧
      PlayerCheckers (bget g'.board 5) gHit.turn = 1 ∧
      OpponentCheckers (bget g'.board 5) gHit.turn = 0 ∧
      PlayerCheckers (bget g'.board (if gHit.turn = 2 then SpaceBarPlayer else SpaceBarOpponent))
          (if gHit.turn = 2 then 1 else 2) =
        PlayerCheckers (bget gHit.board (if gHit.turn = 2 then SpaceBarPlayer else SpaceBarOpponent))
          (if gHit.turn = 2 then 1 else 2) + 1 ∧
      (∀ c : Int, ¬(PlayerCheckers c 1 > 0 ∧ PlayerCheckers c 2 > 0)) :=
  addMove_hit gHit (8, 5) (Or.inl rfl) (by decide) (by decide) (by decide) (by decide)
    (by decide) ⟨by decide, by decide⟩

theorem PlayerCheckers_nonneg (c p : Int) : 0 ≤ PlayerCheckers c p := by
  unfold PlayerCheckers
  split_ifs <;> omega

theorem OpponentCheckers_nonneg (c p : Int) : 0 ≤ OpponentCheckers c p := by
  unfold OpponentCheckers
  split_ifs <;> omega

theorem PlayerCheckers_one_of_nonneg (c : Int) (h : 0 ≤ c) : PlayerCheckers c 1 = c := by
  rw [PlayerCheckers_one]
  split_ifs <;> omega

theorem PlayerCheckers_one_of_nonpos (c : Int) (h : c ≤ 0) : PlayerCheckers c 1 = 0 := by
  rw [PlayerCheckers_one]
  split_ifs <;> omega

theorem PlayerCheckers_two_of_nonneg (c : Int) (h : 0 ≤ c) : PlayerCheckers c 2 = 0 := by
  rw [PlayerCheckers_two]
  split_ifs <;> omega

theorem PlayerCheckers_two_of_nonpos (c : Int) (h : c ≤ 0) : PlayerCheckers c 2 = -c := by
  rw [PlayerCheckers_two]
  split_ifs <;> omega

theorem sideCount_set (b : List Int) (n : Nat) (v p : Int) (h : n < b.length) :
    sideCount (b.set n v) p =
      sideCount b p - PlayerCheckers (b.getD n 0) p + PlayerCheckers v p := by
  induction b generalizing n with
  | nil => simp at h
  | cons x xs ih =>
    cases n with
    | zero =>
      simp only [List.set_cons_zero, sideCount, List.map_cons, List.sum_cons,
        List.getD_cons_zero]
      ring
    | succ k =>
      have hk : k < xs.length := by simpa using h
      have ihk := ih k hk
      simp only [List.set_cons_succ, sideCount, List.map_cons, List.sum_cons,
        List.getD_cons_succ] at ihk ⊢
      rw [ihk]
      ring

theorem sideCount_bset (b : List Int) (i v p : Int) (h : i.toNat < b.length) :
    sideCount (bset b i v) p =
      sideCount b p - PlayerCheckers (bget b i) p + PlayerCheckers v p :=
  sideCount_set b i.toNat v p h

theorem bget_bset_eq (b : List Int) (i j v : Int) (hij : i.toNat = j.toNat)
    (h : i.toNat < b.length) : bget (bset b i v) j = v := by
  rw [show bget (bset b i v) j = bget (bset b i v) i from by unfold bget; rw [hij]]
  exact bget_bset_self b i v h

theorem copyInto_nil (dst : List Int) : copyInto dst [] = dst := by
  simp [copyInto]

theorem foldl_append_eq {α β : Type} (f : α → List β) (l : List α) :
    ∀ init : List β, l.foldl (fun acc a => acc ++ f a) init = init ++ l.flatMap f := by
  induction l with
  | nil => intro init; simp
  | cons a l ih =>
    intro init
    simp only [List.foldl_cons, List.flatMap_cons]
    rw [ih]
    simp

theorem mem_of_moveInList (m : Int × Int) (l : List (Int × Int))
    (h : moveInList m l = true) : m ∈ l := by
  unfold moveInList at h
  rw [List.any_eq_true] at h
  obtain ⟨x, hx, hb⟩ := h
  rw [Bool.and_eq_true, beq_iff_eq, beq_iff_eq] at hb
  have hxm : x = m := by
    rw [Prod.ext_iff]
    exact hb
  exact hxm ▸ hx

theorem mem_IterateSpaces (fr toSp v : Int) (p : Int × Int)
    (hp : p ∈ IterateSpaces fr toSp v) : 0 ≤ p.1 ∧ p.1 ≤ 25 := by
  simp only [IterateSpaces] at hp
  split_ifs at hp
  · simp at hp
  all_goals
    rw [List.mem_map] at hp
  all_goals
    obtain ⟨k, hk, hpe⟩ := hp
  all_goals
    simp at hk
  all_goals
    obtain ⟨a, ha, rfl⟩ := hk
  all_goals
    subst hpe
  all_goals
    dsimp only
  all_goals
    omega

theorem spaceDiff_self (s v : Int) (h1 : 1 ≤ s) (h2 : s ≤ 24) : SpaceDiff s s v = 0 := by
  unfold SpaceDiff SpaceHomePlayer SpaceHomeOpponent SpaceBarPlayer SpaceBarOpponent
  split_ifs <;> omega

theorem haveDiceRoll_self (g : Game) (s : Int) (h1 : 1 ≤ s) (h2 : s ≤ 24) :
    g.haveDiceRoll s s = 0 := by
  have hd : SpaceDiff s s g.variant = 0 := spaceDiff_self s g.variant h1 h2
  simp only [Game.haveDiceRoll, hd]
  simp

theorem haveDiceRoll_home (g : Game) (s t : Int)
    (ht : t = SpaceHomePlayer ∨ t = SpaceHomeOpponent)
    (hmb : g.mayBearOff g.turn false = false) : g.haveDiceRoll s t = 0 := by
  simp only [Game.haveDiceRoll]
  split_ifs with hA hB hC
  · rfl
  · rfl
  · rfl
  · exact absurd ⟨ht, by simp [hmb]⟩ hB

theorem mayBearOff_entered (g : Game) (p : Int) (h : g.mayBearOff p false = true) :
    (p = 1 → g.player1.entered = true) ∧ (p = 2 → g.player2.entered = true) := by
  simp only [Game.mayBearOff] at h
  split_ifs at h with h1 h2
  all_goals
    exact ⟨fun hp => Classical.byContradiction fun hc => h2 (Or.inl ⟨hp, hc⟩),
           fun hp => Classical.byContradiction fun hc => h2 (Or.inr ⟨hp, hc⟩)⟩

theorem mayBearOff_false_of_not_entered (g : Game)
    (h : (g.turn = 1 ∧ g.player1.entered = false) ∨
      (g.turn = 2 ∧ g.player2.entered = false)) :
    g.mayBearOff g.turn false = false := by
  cases hmb : g.mayBearOff g.turn false
  · rfl
  · exfalso
    have he := mayBearOff_entered g g.turn hmb
    rcases h with ⟨ha, hb⟩ | ⟨ha, hb⟩
    · have hx := he.1 ha
      rw [hb] at hx
      exact Bool.false_ne_true hx
    · have hx := he.2 ha
      rw [hb] at hx
      exact Bool.false_ne_true hx

theorem mem_entryMoves (g : Game) (barSpace : Int) (m : Int × Int)
    (hm : m ∈ g.entryMoves barSpace) :
    m.1 = barSpace ∧ 0 ≤ m.2 ∧ m.2 ≤ 25 := by
  simp only [Game.entryMoves] at hm
  rw [List.mem_filterMap] at hm
  obtain ⟨hs, hmem, hf⟩ := hm
  have hb := mem_IterateSpaces _ _ _ _ hmem
  split_ifs at hf
  rw [Option.some.injEq] at hf
  subst hf
  exact ⟨rfl, hb.1, hb.2⟩

theorem mem_spaceMoves (g : Game) (mb : Bool) (space : Int) (m : Int × Int)
    (ht : g.turn = 1 ∨ g.turn = 2)
    (hmb : mb = g.mayBearOff g.turn false)
    (hm : m ∈ g.spaceMoves mb space) :
    m.1 = space ∧ PlayerCheckers (bget g.board space) g.turn > 0 ∧
      0 ≤ m.2 ∧ m.2 ≤ 25 ∧ space ≠ m.2 ∧
      (g.turn = 1 → space ≠ 25 ∧ ¬(space = 0 ∧ m.2 = 25)) ∧
      (g.turn = 2 → space ≠ 0 ∧ ¬(space = 25 ∧ m.2 = 0)) := by
  simp only [Game.spaceMoves] at hm
  rcases ht with ht1 | ht1
  · -- Player 1 to move
    have h12 : ¬((1 : Int) = 2) := by norm_num
    simp only [ht1, if_neg h12] at hm hmb ⊢
    by_cases hbar : space = SpaceBarPlayer ∨ space = SpaceBarOpponent
    · rw [if_pos hbar] at hm
      simp at hm
    · rw [if_neg hbar] at hm
      by_cases hgate : (space = SpaceHomePlayer ∨ space = SpaceHomeOpponent) ∧
          (g.variant = VariantBackgammon ∨ space ≠ SpaceHomePlayer ∨
            g.player1.entered = true)
      · rw [if_pos hgate] at hm
        simp at hm
      · rw [if_neg hgate] at hm
        by_cases hpc0 : PlayerCheckers (bget g.board space) 1 = 0
        · rw [if_pos hpc0] at hm
          simp at hm
        · rw [if_neg hpc0] at hm
          rw [List.mem_append] at hm
          have hpc : PlayerCheckers (bget g.board space) 1 > 0 := by
            have := PlayerCheckers_nonneg (bget g.board space) 1
            omega
          have hsp0 : space = 0 →
              g.player1.entered = false ∧ g.variant ≠ VariantBackgammon := by
            intro hs0
            subst hs0
            constructor
            · cases he : g.player1.entered
              · rfl
              · exact absurd ⟨Or.inl rfl, Or.inr (Or.inr he)⟩ hgate
            · intro hbg
              exact hgate ⟨Or.inl rfl, Or.inl hbg⟩
          have hsp25 : space ≠ 25 := by
            intro hs25
            subst hs25
            exact hgate ⟨Or.inr rfl, Or.inr (Or.inl (by decide))⟩
          have hnoBear : space = 0 → g.mayBearOff 1 false = false := by
            intro hs0
            have hx := mayBearOff_false_of_not_entered g (Or.inl ⟨ht1, (hsp0 hs0).1⟩)
            rw [ht1] at hx
            exact hx
          rcases hm with hmB | hmN
          · -- the bear-off candidate
            split_ifs at hmB with hc1 hc2 hc3
            all_goals
              first
                | (rw [List.mem_singleton] at hmB
                   subst hmB
                   have hs0 : space ≠ 0 := by
                     intro hs0
                     have hf : mb = false := hmb.trans (hnoBear hs0)
                     rw [hc1] at hf
                     exact Bool.false_ne_true hf.symm
                   exact ⟨rfl, hpc, le_refl 0, (by norm_num : (0 : Int) ≤ 25), hs0,
                     fun _ => ⟨hsp25,
                       fun hcon => absurd hcon.2 (by norm_num : ¬((0 : Int) = 25))⟩,
                     fun hcon => absurd hcon h12⟩)
                | simp at hmB
          · -- a normal forward move
            rw [List.mem_filterMap] at hmN
            obtain ⟨t, htm, hf⟩ := hmN
            have hbt : 0 ≤ t.1 ∧ t.1 ≤ 25 := by
              split_ifs at htm
              all_goals exact mem_IterateSpaces _ _ _ _ htm
            split_ifs at hf with hdice hoc
            rw [Option.some.injEq] at hf
            subst hf
            have hmbg : space = 0 → g.mayBearOff g.turn false = false := by
              intro hs0
              rw [ht1]
              exact hnoBear hs0
            have hts : space = 0 → t.1 ≠ 0 ∧ t.1 ≠ 25 := by
              intro hs0
              constructor
              · intro he
                exact hdice (haveDiceRoll_home g space t.1 (Or.inl he) (hmbg hs0))
              · intro he
                exact hdice (haveDiceRoll_home g space t.1 (Or.inr he) (hmbg hs0))
            have hneq : space ≠ t.1 := by
              by_cases hs0 : space = 0
              · intro he
                exact (hts hs0).1 (by rw [← he, hs0])
              · by_cases hs124 : 1 ≤ space ∧ space ≤ 24
                · intro he
                  exact hdice (by rw [← he]; exact haveDiceRoll_self g space hs124.1 hs124.2)
                · intro he
                  omega
            exact ⟨rfl, hpc, hbt.1, hbt.2, hneq,
              fun _ => ⟨hsp25, fun hcon => (hts hcon.1).2 hcon.2⟩,
              fun hcon => absurd hcon h12⟩
  · -- Player 2 to move
    simp only [ht1, eq_self_iff_true, if_true, true_and] at hm hmb ⊢
    by_cases hbar : space = SpaceBarPlayer ∨ space = SpaceBarOpponent
    · rw [if_pos hbar] at hm
      simp at hm
    · rw [if_neg hbar] at hm
      by_cases hgate : (space = SpaceHomePlayer ∨ space = SpaceHomeOpponent) ∧
          (g.variant = VariantBackgammon ∨ space ≠ SpaceHomeOpponent ∨
            g.player2.entered = true)
      · rw [if_pos hgate] at hm
        simp at hm
      · rw [if_neg hgate] at hm
        by_cases hpc0 : PlayerCheckers (bget g.board space) 2 = 0
        · rw [if_pos hpc0] at hm
          simp at hm
        · rw [if_neg hpc0] at hm
          rw [List.mem_append] at hm
          have hpc : PlayerCheckers (bget g.board space) 2 > 0 := by
            have := PlayerCheckers_nonneg (bget g.board space) 2
            omega
          have hsp25c : space = 25 →
              g.player2.entered = false ∧ g.variant ≠ VariantBackgammon := by
            intro hs25
            subst hs25
            constructor
            · cases he : g.player2.entered
              · rfl
              · exact absurd ⟨Or.inr rfl, Or.inr (Or.inr he)⟩ hgate
            · intro hbg
              exact hgate ⟨Or.inr rfl, Or.inl hbg⟩
          have hsp0 : space ≠ 0 := by
            intro hs0
            subst hs0
            exact hgate ⟨Or.inl rfl, Or.inr (Or.inl (by decide))⟩
          have hnoBear : space = 25 → g.mayBearOff 2 false = false := by
            intro hs25
            have hx := mayBearOff_false_of_not_entered g (Or.inr ⟨ht1, (hsp25c hs25).1⟩)
            rw [ht1] at hx
            exact hx
          rcases hm with hmB | hmN
          · split_ifs at hmB with hc1 hc2 hc3
            all_goals
              first
                | (rw [List.mem_singleton] at hmB
                   subst hmB
                   have hs25 : space ≠ 25 := by
                     intro hs25
                     have hf : mb = false := hmb.trans (hnoBear hs25)
                     rw [hc1] at hf
                     exact Bool.false_ne_true hf.symm
                   exact ⟨rfl, hpc, (by norm_num : (0 : Int) ≤ 25), le_refl 25, hs25,
                     fun hcon => absurd hcon (by norm_num),
                     fun _ => ⟨hsp0, fun hcon => absurd hcon.1 hs25⟩⟩)
                | simp at hmB
          · rw [List.mem_filterMap] at hmN
            obtain ⟨t, htm, hf⟩ := hmN
            have hbt : 0 ≤ t.1 ∧ t.1 ≤ 25 := by
              split_ifs at htm
              all_goals exact mem_IterateSpaces _ _ _ _ htm
            split_ifs at hf with hdice hoc
            rw [Option.some.injEq] at hf
            subst hf
            have hmbg : space = 25 → g.mayBearOff g.turn false = false := by
              intro hs25
              rw [ht1]
              exact hnoBear hs25
            have hts : space = 25 → t.1 ≠ 0 ∧ t.1 ≠ 25 := by
              intro hs25
              constructor
              · intro he
                exact hdice (haveDiceRoll_home g space t.1 (Or.inl he) (hmbg hs25))
              · intro he
                exact hdice (haveDiceRoll_home g space t.1 (Or.inr he) (hmbg hs25))
            have hneq : space ≠ t.1 := by
              by_cases hs25 : space = 25
              · intro he
                exact (hts hs25).2 (by rw [← he, hs25])
              · by_cases hs124 : 1 ≤ space ∧ space ≤ 24
                · intro he
                  exact hdice (by rw [← he]; exact haveDiceRoll_self g space hs124.1 hs124.2)
                · intro he
                  omega
            exact ⟨rfl, hpc, hbt.1, hbt.2, hneq,
              fun hcon => absurd hcon (by norm_num),
              fun _ => ⟨hsp0, fun hcon => (hts hcon.1).1 hcon.2⟩⟩

theorem mem_emitMoves (g : Game) (m : Int × Int)
    (ht : g.turn = 1 ∨ g.turn = 2) (hlen : g.board.length = 28)
    (hm : m ∈ g.emitMoves) :
    PlayerCheckers (bget g.board m.1) g.turn > 0 ∧ m.1 ≠ m.2 ∧
      0 ≤ m.1 ∧ m.1 ≤ 27 ∧ 0 ≤ m.2 ∧ m.2 ≤ 25 ∧
      (g.turn = 1 → m.1 ≠ 25 ∧ ¬(m.1 = 0 ∧ m.2 = 25)) ∧
      (g.turn = 2 → m.1 ≠ 0 ∧ ¬(m.1 = 25 ∧ m.2 = 0)) := by
  simp only [Game.emitMoves] at hm
  split_ifs at hm with hb1 hb2
  · -- entry moves from the player bar
    obtain ⟨h1, h2, h3⟩ := mem_entryMoves g SpaceBarPlayer m hm
    have h26 : m.1 = 26 := h1
    refine ⟨?_, ?_, ?_, ?_, h2, h3, ?_, ?_⟩
    · rw [h1]
      exact hb1
    · omega
    · omega
    · omega
    · intro hx
      omega
    · intro hx
      omega
  · -- entry moves from the opponent bar
    obtain ⟨h1, h2, h3⟩ := mem_entryMoves g SpaceBarOpponent m hm
    have h27 : m.1 = 27 := h1
    refine ⟨?_, ?_, ?_, ?_, h2, h3, ?_, ?_⟩
    · rw [h1]
      exact hb2
    · omega
    · omega
    · omega
    · intro hx
      omega
    · intro hx
      omega
  · -- the per-space emission loop
    rw [foldl_append_eq] at hm
    rw [List.nil_append, List.mem_flatMap] at hm
    obtain ⟨k, hk, hmk⟩ := hm
    simp at hk
    obtain ⟨a, ha, rfl⟩ := hk
    obtain ⟨h1, hpc, hd0, hd25, hne, hcl1, hcl2⟩ :=
      mem_spaceMoves g (g.mayBearOff g.turn false) ((a : Nat) : Int) m ht rfl hmk
    have h1' : m.1 = ((a : Nat) : Int) := h1
    have hk27 : ((a : Nat) : Int) ≤ 27 := by
      omega
    refine ⟨?_, ?_, ?_, ?_, hd0, hd25, ?_, ?_⟩
    · rw [h1']
      exact hpc
    · rw [h1']
      exact hne
    · rw [h1']
      omega
    · rw [h1']
      exact hk27
    · intro hx
      rw [h1']
      exact hcl1 hx
    · intro hx
      rw [h1']
      exact hcl2 hx

theorem replace_emit_sound (g : Game) (m₀ : Int × Int)
    (ht : g.turn = 1 ∨ g.turn = 2) (hlen : g.board.length = 28)
    (hc : BarsCanonical g.board) (hm₀e : m₀ ∈ g.emitMoves) :
    PlayerCheckers (bget g.board (replaceSpace g.turn m₀.1)) g.turn > 0 ∧
      replaceSpace g.turn m₀.1 ≠ replaceSpace g.turn m₀.2 ∧
      0 ≤ replaceSpace g.turn m₀.1 ∧ replaceSpace g.turn m₀.1 ≤ 27 ∧
      0 ≤ replaceSpace g.turn m₀.2 ∧ replaceSpace g.turn m₀.2 ≤ 25 := by
  obtain ⟨hpc, hne, h0, h27, h0', h25', hcl1, hcl2⟩ := mem_emitMoves g m₀ ht hlen hm₀e
  rcases ht with ht1 | ht1
  · -- Player 1: only 25 → 0 and 27 → 26 are renamed
    obtain ⟨hm25, hm025⟩ := hcl1 ht1
    have hsrc : bget g.board m₀.1 > 0 := by
      have hp1 : PlayerCheckers (bget g.board m₀.1) 1 > 0 := ht1 ▸ hpc
      rw [PlayerCheckers_one] at hp1
      split_ifs at hp1 <;> omega
    have hs27 : m₀.1 ≠ 27 := by
      intro he
      rw [he] at hsrc
      have hc2 : bget g.board 27 ≤ 0 := hc.2
      omega
    have hr1 : replaceSpace 1 m₀.1 = m₀.1 := by
      unfold replaceSpace
      split_ifs with c1 c2 c3 c4
      · exact absurd c1.2 hm25
      · exact absurd c2.2 hs27
      · exact absurd c3.1 (by norm_num)
      · exact absurd c4.1 (by norm_num)
      · rfl
    by_cases h25 : m₀.2 = 25
    · have hr2 : replaceSpace 1 m₀.2 = 0 := by
        unfold replaceSpace
        rw [if_pos ⟨rfl, h25⟩]
        rfl
      refine ⟨?_, ?_, ?_, ?_, ?_, ?_⟩
      · rw [ht1, hr1]
        exact ht1 ▸ hpc
      · rw [ht1, hr1, hr2]
        exact fun he => hm025 ⟨he, h25⟩
      · rw [ht1, hr1]
        exact h0
      · rw [ht1, hr1]
        exact h27
      · rw [ht1, hr2]
      · rw [ht1, hr2]
        norm_num
    · have hr2 : replaceSpace 1 m₀.2 = m₀.2 := by
        unfold replaceSpace
        split_ifs with c1 c2 c3 c4
        · exact absurd c1.2 h25
        · exact absurd (show m₀.2 = 27 from c2.2) (by omega)
        · exact absurd c3.1 (by norm_num)
        · exact absurd c4.1 (by norm_num)
        · rfl
      refine ⟨?_, ?_, ?_, ?_, ?_, ?_⟩
      · rw [ht1, hr1]
        exact ht1 ▸ hpc
      · rw [ht1, hr1, hr2]
        exact hne
      · rw [ht1, hr1]
        exact h0
      · rw [ht1, hr1]
        exact h27
      · rw [ht1, hr2]
        exact h0'
      · rw [ht1, hr2]
        exact h25'
  · -- Player 2: only 0 → 25 and 26 → 27 are renamed
    obtain ⟨hm0, hm250⟩ := hcl2 ht1
    have hsrc : bget g.board m₀.1 < 0 := by
      have hp1 : PlayerCheckers (bget g.board m₀.1) 2 > 0 := ht1 ▸ hpc
      rw [PlayerCheckers_two] at hp1
      split_ifs at hp1 <;> omega
    have hs26 : m₀.1 ≠ 26 := by
      intro he
      rw [he] at hsrc
      have hc1 : bget g.board 26 ≥ 0 := hc.1
      omega
    have hr1 : replaceSpace 2 m₀.1 = m₀.1 := by
      unfold replaceSpace
      split_ifs with c1 c2 c3 c4
      · exact absurd c1.1 (by norm_num)
      · exact absurd c2.1 (by norm_num)
      · exact absurd c3.2 hm0
      · exact absurd (show m₀.1 = 26 from c4.2) hs26
      · rfl
    by_cases h0d : m₀.2 = 0
    · have hr2 : replaceSpace 2 m₀.2 = 25 := by
        unfold replaceSpace
        split_ifs with c1 c2 c3 c4
        · exact absurd c1.1 (by norm_num)
        · exact absurd c2.1 (by norm_num)
        · rfl
        · exact absurd ⟨rfl, h0d⟩ c3
        · exact absurd ⟨rfl, h0d⟩ c3
      refine ⟨?_, ?_, ?_, ?_, ?_, ?_⟩
      · rw [ht1, hr1]
        exact ht1 ▸ hpc
      · rw [ht1, hr1, hr2]
        exact fun he => hm250 ⟨he, h0d⟩
      · rw [ht1, hr1]
        exact h0
      · rw [ht1, hr1]
        exact h27
      · rw [ht1, hr2]
        norm_num
      · rw [ht1, hr2]
    · have hr2 : replaceSpace 2 m₀.2 = m₀.2 := by
        unfold replaceSpace
        split_ifs with c1 c2 c3 c4
        · exact absurd c1.1 (by norm_num)
        · exact absurd c2.1 (by norm_num)
        · exact absurd c3.2 h0d
        · exact absurd (show m₀.2 = 26 from c4.2) (by omega)
        · rfl
      refine ⟨?_, ?_, ?_, ?_, ?_, ?_⟩
      · rw [ht1, hr1]
        exact ht1 ▸ hpc
      · rw [ht1, hr1, hr2]
        exact hne
      · rw [ht1, hr1]
        exact h0
      · rw [ht1, hr1]
        exact h27
      · rw [ht1, hr2]
        exact h0'
      · rw [ht1, hr2]
        exact h25'

theorem mem_legalMoves (g : Game) (fuel : Nat) (lcl : Bool) (m : Int × Int)
    (ht : g.turn = 1 ∨ g.turn = 2) (hlen : g.board.length = 28)
    (hc : BarsCanonical g.board)
    (hm : m ∈ legalMovesF fuel g lcl) :
    PlayerCheckers (bget g.board m.1) g.turn > 0 ∧ m.1 ≠ m.2 ∧
      0 ≤ m.1 ∧ m.1 ≤ 27 ∧ 0 ≤ m.2 ∧ m.2 ≤ 25 := by
  simp only [legalMovesF, legalCore] at hm
  split_ifs at hm with hg hmax
  · simp at hm
  · rw [List.mem_map] at hm
    obtain ⟨m₀, hm₀, hrepl⟩ := hm
    rw [List.mem_filterMap] at hm₀
    obtain ⟨p, hp, hf⟩ := hm₀
    split_ifs at hf
    rw [Option.some.injEq] at hf
    obtain ⟨p1, p2⟩ := p
    have hf' : p1 = m₀ := hf
    have hm₀e : m₀ ∈ g.emitMoves := by
      rw [← hf']
      exact (List.of_mem_zip hp).1
    subst hrepl
    exact replace_emit_sound g m₀ ht hlen hc hm₀e
  · rw [List.mem_map] at hm
    obtain ⟨m₀, hm₀, hrepl⟩ := hm
    subst hrepl
    exact replace_emit_sound g m₀ ht hlen hc hm₀

theorem addMove_board (g : Game) (m : Int × Int) (g₁ : Game)
    (ha : g.addMove m = some g₁) :
    OpponentCheckers (bget g.board m.2) g.turn ≤ 1 ∧
      g₁.board =
        (let delta : Int := if g.turn = 2 then -1 else 1
         let b1 := bset g.board m.1 (bget g.board m.1 - delta)
         if OpponentCheckers (bget g.board m.2) g.turn = 1 then
           let bh := bset b1 m.2 delta
           let barSpace := if g.turn = 2 then SpaceBarPlayer else SpaceBarOpponent
           bset bh barSpace (bget bh barSpace + delta * -1)
         else bset b1 m.2 (bget b1 m.2 + delta)) := by
  simp only [Game.addMove] at ha
  split at ha
  · exact absurd ha (by simp)
  · rename_i hoc
    rw [Option.some.injEq] at ha
    constructor
    · omega
    · rw [← ha, Game.setEntered_board]

theorem addMove_conserves (g : Game) (m : Int × Int) (g₁ : Game)
    (ht : g.turn = 1 ∨ g.turn = 2)
    (hlen : g.board.length = 28)
    (hc : BarsCanonical g.board)
    (hpc : PlayerCheckers (bget g.board m.1) g.turn > 0)
    (hne : m.1 ≠ m.2)
    (hb1 : 0 ≤ m.1) (hb2 : m.1 ≤ 27) (hb3 : 0 ≤ m.2) (hb4 : m.2 ≤ 25)
    (ha : g.addMove m = some g₁) :
    sideCount g₁.board 1 = sideCount g.board 1 ∧
      sideCount g₁.board 2 = sideCount g.board 2 ∧ BarsCanonical g₁.board := by
  obtain ⟨hoc, hboard⟩ := addMove_board g m g₁ ha
  have hine : m.1.toNat ≠ m.2.toNat := by omega
  have hi1 : m.1.toNat < g.board.length := by omega
  have hi2 : m.2.toNat < g.board.length := by omega
  have hc26 : bget g.board 26 ≥ 0 := hc.1
  have hc27 : bget g.board 27 ≤ 0 := hc.2
  rcases ht with ht1 | ht1
  · -- Player 1 moves: delta = 1, a hit goes to slot 27
    have h12 : ¬((1 : Int) = 2) := by norm_num
    simp only [ht1, if_neg h12, SpaceBarPlayer, SpaceBarOpponent] at hboard hoc
    have hocnn : 0 ≤ OpponentCheckers (bget g.board m.2) 1 := OpponentCheckers_nonneg _ 1
    have hsrc : bget g.board m.1 > 0 := by
      have hp1 : PlayerCheckers (bget g.board m.1) 1 > 0 := ht1 ▸ hpc
      rw [PlayerCheckers_one] at hp1
      split_ifs at hp1 <;> omega
    have h127 : m.1.toNat ≠ (27 : Int).toNat := by
      intro he
      have hx : bget g.board m.1 = bget g.board 27 := by
        unfold bget
        rw [he]
      omega
    have hb1len : (bset g.board m.1 (bget g.board m.1 - 1)).length = g.board.length :=
      bset_length g.board m.1 _
    have hb1get : bget (bset g.board m.1 (bget g.board m.1 - 1)) m.2 = bget g.board m.2 :=
      bget_bset_ne g.board m.1 m.2 _ hine
    have hS1 : ∀ p, sideCount (bset g.board m.1 (bget g.board m.1 - 1)) p =
        sideCount g.board p - PlayerCheckers (bget g.board m.1) p +
          PlayerCheckers (bget g.board m.1 - 1) p :=
      fun p => sideCount_bset g.board m.1 _ p hi1
    rcases (by omega : OpponentCheckers (bget g.board m.2) 1 = 0 ∨
        OpponentCheckers (bget g.board m.2) 1 = 1) with hoc0 | hoc1
    · -- no hit: the mover stacks onto m.2
      rw [if_neg (by omega : ¬(OpponentCheckers (bget g.board m.2) 1 = 1))] at hboard
      have hz : 0 ≤ bget g.board m.2 := by
        rw [OpponentCheckers_one] at hoc0
        split_ifs at hoc0 <;> omega
      have hS2 : ∀ p, sideCount (bset (bset g.board m.1 (bget g.board m.1 - 1)) m.2
            (bget (bset g.board m.1 (bget g.board m.1 - 1)) m.2 + 1)) p =
          sideCount (bset g.board m.1 (bget g.board m.1 - 1)) p -
            PlayerCheckers (bget (bset g.board m.1 (bget g.board m.1 - 1)) m.2) p +
            PlayerCheckers (bget (bset g.board m.1 (bget g.board m.1 - 1)) m.2 + 1) p :=
        fun p => sideCount_bset _ m.2 _ p (by rw [hb1len]; exact hi2)
    
      refine ⟨?_, ?_, ?_⟩
      · rw [hboard, hS2 1, hS1 1, hb1get]
        have e1 := PlayerCheckers_one_of_nonneg (bget g.board m.1) (by omega)
        have e2 := PlayerCheckers_one_of_nonneg (bget g.board m.1 - 1) (by omega)
        have e3 := PlayerCheckers_one_of_nonneg (bget g.board m.2) hz
        have e4 := PlayerCheckers_one_of_nonneg (bget g.board m.2 + 1) (by omega)
        omega
      · rw [hboard, hS2 2, hS1 2, hb1get]
        have e1 := PlayerCheckers_two_of_nonneg (bget g.board m.1) (by omega)
        have e2 := PlayerCheckers_two_of_nonneg (bget g.board m.1 - 1) (by omega)
        have e3 := PlayerCheckers_two_of_nonneg (bget g.board m.2) hz
        have e4 := PlayerCheckers_two_of_nonneg (bget g.board m.2 + 1) (by omega)
        omega
      · unfold BarsCanonical SpaceBarPlayer SpaceBarOpponent
        constructor
        · rw [hboard]
          rw [bget_bset_ne _ m.2 26 _ (by omega)]
          by_cases hm126 : m.1.toNat = (26 : Int).toNat
          · rw [bget_bset_eq g.board m.1 26 _ hm126 hi1]
            omega
          · rw [bget_bset_ne g.board m.1 26 _ hm126]
            omega
        · rw [hboard]
          rw [bget_bset_ne _ m.2 27 _ (by omega)]
          rw [bget_bset_ne g.board m.1 27 _ h127]
          omega
    · -- hit: the blot is sent to slot 27
      rw [if_pos hoc1] at hboard
      have hm2v : bget g.board m.2 = -1 := by
        rw [OpponentCheckers_one] at hoc1
        split_ifs at hoc1 <;> omega
      have hbhlen : (bset (bset g.board m.1 (bget g.board m.1 - 1)) m.2 1).length =
          g.board.length := by
        rw [bset_length, hb1len]
      have hbh27 : bget (bset (bset g.board m.1 (bget g.board m.1 - 1)) m.2 1) 27 =
          bget g.board 27 := by
        rw [bget_bset_ne _ m.2 27 _ (by omega), bget_bset_ne g.board m.1 27 _ h127]
      have hS2 : ∀ p, sideCount (bset (bset g.board m.1 (bget g.board m.1 - 1)) m.2 1) p =
          sideCount (bset g.board m.1 (bget g.board m.1 - 1)) p -
            PlayerCheckers (bget (bset g.board m.1 (bget g.board m.1 - 1)) m.2) p +
            PlayerCheckers 1 p :=
        fun p => sideCount_bset _ m.2 _ p (by rw [hb1len]; exact hi2)
      have hS3 : ∀ p, sideCount (bset (bset (bset g.board m.1 (bget g.board m.1 - 1)) m.2 1)
            27 (bget (bset (bset g.board m.1 (bget g.board m.1 - 1)) m.2 1) 27 + 1 * -1)) p =
          sideCount (bset (bset g.board m.1 (bget g.board m.1 - 1)) m.2 1) p -
            PlayerCheckers (bget (bset (bset g.board m.1 (bget g.board m.1 - 1)) m.2 1) 27) p +
            PlayerCheckers (bget (bset (bset g.board m.1 (bget g.board m.1 - 1)) m.2 1) 27 +
              1 * -1) p :=
        fun p => sideCount_bset _ 27 _ p (by rw [hbhlen]; omega)
      refine ⟨?_, ?_, ?_⟩
      · rw [hboard, hS3 1, hS2 1, hS1 1, hbh27, hb1get]
        have e1 := PlayerCheckers_one_of_nonneg (bget g.board m.1) (by omega)
        have e2 := PlayerCheckers_one_of_nonneg (bget g.board m.1 - 1) (by omega)
        have e3 := PlayerCheckers_one_of_nonpos (bget g.board m.2) (by omega)
        have e4 := PlayerCheckers_one_of_nonneg (1 : Int) (by omega)
        have e5 := PlayerCheckers_one_of_nonpos (bget g.board 27) (by omega)
        have e6 := PlayerCheckers_one_of_nonpos (bget g.board 27 + 1 * -1) (by omega)
        omega
      · rw [hboard, hS3 2, hS2 2, hS1 2, hbh27, hb1get]
        have e1 := PlayerCheckers_two_of_nonneg (bget g.board m.1) (by omega)
        have e2 := PlayerCheckers_two_of_nonneg (bget g.board m.1 - 1) (by omega)
        have e3 := PlayerCheckers_two_of_nonpos (bget g.board m.2) (by omega)
        have e4 := PlayerCheckers_two_of_nonneg (1 : Int) (by omega)
        have e5 := PlayerCheckers_two_of_nonpos (bget g.board 27) (by omega)
        have e6 := PlayerCheckers_two_of_nonpos (bget g.board 27 + 1 * -1) (by omega)
        omega
      · unfold BarsCanonical SpaceBarPlayer SpaceBarOpponent
        constructor
        · rw [hboard]
          rw [bget_bset_ne _ 27 26 _ (by omega)]
          rw [bget_bset_ne _ m.2 26 _ (by omega)]
          by_cases hm126 : m.1.toNat = (26 : Int).toNat
          · rw [bget_bset_eq g.board m.1 26 _ hm126 hi1]
            omega
          · rw [bget_bset_ne g.board m.1 26 _ hm126]
            omega
        · rw [hboard]
          rw [bget_bset_self _ 27 _ (by rw [hbhlen]; omega)]
          rw [hbh27]
          omega
  · -- Player 2 moves: delta = -1, a hit goes to slot 26
    simp only [ht1, eq_self_iff_true, if_true, SpaceBarPlayer, SpaceBarOpponent]
      at hboard hoc
    have hocnn : 0 ≤ OpponentCheckers (bget g.board m.2) 2 := OpponentCheckers_nonneg _ 2
    have hsrc : bget g.board m.1 < 0 := by
      have hp1 : PlayerCheckers (bget g.board m.1) 2 > 0 := ht1 ▸ hpc
      rw [PlayerCheckers_two] at hp1
      split_ifs at hp1 <;> omega
    have h126 : m.1.toNat ≠ (26 : Int).toNat := by
      intro he
      have hx : bget g.board m.1 = bget g.board 26 := by
        unfold bget
        rw [he]
      omega
    have hb1len : (bset g.board m.1 (bget g.board m.1 - -1)).length = g.board.length :=
      bset_length g.board m.1 _
    have hb1get : bget (bset g.board m.1 (bget g.board m.1 - -1)) m.2 = bget g.board m.2 :=
      bget_bset_ne g.board m.1 m.2 _ hine
    have hS1 : ∀ p, sideCount (bset g.board m.1 (bget g.board m.1 - -1)) p =
        sideCount g.board p - PlayerCheckers (bget g.board m.1) p +
          PlayerCheckers (bget g.board m.1 - -1) p :=
      fun p => sideCount_bset g.board m.1 _ p hi1
    rcases (by omega : OpponentCheckers (bget g.board m.2) 2 = 0 ∨
        OpponentCheckers (bget g.board m.2) 2 = 1) with hoc0 | hoc1
    · -- no hit
      rw [if_neg (by omega : ¬(OpponentCheckers (bget g.board m.2) 2 = 1))] at hboard
      have hz : bget g.board m.2 ≤ 0 := by
        rw [OpponentCheckers_two] at hoc0
        split_ifs at hoc0 <;> omega
      have hS2 : ∀ p, sideCount (bset (bset g.board m.1 (bget g.board m.1 - -1)) m.2
            (bget (bset g.board m.1 (bget g.board m.1 - -1)) m.2 + -1)) p =
          sideCount (bset g.board m.1 (bget g.board m.1 - -1)) p -
            PlayerCheckers (bget (bset g.board m.1 (bget g.board m.1 - -1)) m.2) p +
            PlayerCheckers (bget (bset g.board m.1 (bget g.board m.1 - -1)) m.2 + -1) p :=
        fun p => sideCount_bset _ m.2 _ p (by rw [hb1len]; exact hi2)
      refine ⟨?_, ?_, ?_⟩
      · rw [hboard, hS2 1, hS1 1, hb1get]
        have e1 := PlayerCheckers_one_of_nonpos (bget g.board m.1) (by omega)
        have e2 := PlayerCheckers_one_of_nonpos (bget g.board m.1 - -1) (by omega)
        have e3 := PlayerCheckers_one_of_nonpos (bget g.board m.2) hz
        have e4 := PlayerCheckers_one_of_nonpos (bget g.board m.2 + -1) (by omega)
        omega
      · rw [hboard, hS2 2, hS1 2, hb1get]
        have e1 := PlayerCheckers_two_of_nonpos (bget g.board m.1) (by omega)
        have e2 := PlayerCheckers_two_of_nonpos (bget g.board m.1 - -1) (by omega)
        have e3 := PlayerCheckers_two_of_nonpos (bget g.board m.2) hz
        have e4 := PlayerCheckers_two_of_nonpos (bget g.board m.2 + -1) (by omega)
        omega
      · unfold BarsCanonical SpaceBarPlayer SpaceBarOpponent
        constructor
        · rw [hboard]
          rw [bget_bset_ne _ m.2 26 _ (by omega)]
          rw [bget_bset_ne g.board m.1 26 _ h126]
          omega
        · rw [hboard]
          rw [bget_bset_ne _ m.2 27 _ (by omega)]
          by_cases hm127 : m.1.toNat = (27 : Int).toNat
          · rw [bget_bset_eq g.board m.1 27 _ hm127 hi1]
            omega
          · rw [bget_bset_ne g.board m.1 27 _ hm127]
            omega
    · -- hit
      rw [if_pos hoc1] at hboard
      have hm2v : bget g.board m.2 = 1 := by
        rw [OpponentCheckers_two] at hoc1
        split_ifs at hoc1 <;> omega
      have hbhlen : (bset (bset g.board m.1 (bget g.board m.1 - -1)) m.2 (-1)).length =
          g.board.length := by
        rw [bset_length, hb1len]
      have hbh26 : bget (bset (bset g.board m.1 (bget g.board m.1 - -1)) m.2 (-1)) 26 =
          bget g.board 26 := by
        rw [bget_bset_ne _ m.2 26 _ (by omega), bget_bset_ne g.board m.1 26 _ h126]
      have hS2 : ∀ p, sideCount (bset (bset g.board m.1 (bget g.board m.1 - -1)) m.2 (-1)) p =
          sideCount (bset g.board m.1 (bget g.board m.1 - -1)) p -
            PlayerCheckers (bget (bset g.board m.1 (bget g.board m.1 - -1)) m.2) p +
            PlayerCheckers (-1) p :=
        fun p => sideCount_bset _ m.2 _ p (by rw [hb1len]; exact hi2)
      have hS3 : ∀ p, sideCount (bset (bset (bset g.board m.1 (bget g.board m.1 - -1)) m.2 (-1))
            26 (bget (bset (bset g.board m.1 (bget g.board m.1 - -1)) m.2 (-1)) 26 +
              -1 * -1)) p =
          sideCount (bset (bset g.board m.1 (bget g.board m.1 - -1)) m.2 (-1)) p -
            PlayerCheckers
              (bget (bset (bset g.board m.1 (bget g.board m.1 - -1)) m.2 (-1)) 26) p +
            PlayerCheckers
              (bget (bset (bset g.board m.1 (bget g.board m.1 - -1)) m.2 (-1)) 26 +
                -1 * -1) p :=
        fun p => sideCount_bset _ 26 _ p (by rw [hbhlen]; omega)
      refine ⟨?_, ?_, ?_⟩
      · rw [hboard, hS3 1, hS2 1, hS1 1, hbh26, hb1get]
        have e1 := PlayerCheckers_one_of_nonpos (bget g.board m.1) (by omega)
        have e2 := PlayerCheckers_one_of_nonpos (bget g.board m.1 - -1) (by omega)
        have e3 := PlayerCheckers_one_of_nonneg (bget g.board m.2) (by omega)
        have e4 := PlayerCheckers_one_of_nonpos (-1 : Int) (by omega)
        have e5 := PlayerCheckers_one_of_nonneg (bget g.board 26) (by omega)
        have e6 := PlayerCheckers_one_of_nonneg (bget g.board 26 + -1 * -1) (by omega)
        omega
      · rw [hboard, hS3 2, hS2 2, hS1 2, hbh26, hb1get]
        have e1 := PlayerCheckers_two_of_nonpos (bget g.board m.1) (by omega)
        have e2 := PlayerCheckers_two_of_nonpos (bget g.board m.1 - -1) (by omega)
        have e3 := PlayerCheckers_two_of_nonneg (bget g.board m.2) (by omega)
        have e4 := PlayerCheckers_two_of_nonpos (-1 : Int) (by omega)
        have e5 := PlayerCheckers_two_of_nonneg (bget g.board 26) (by omega)
        have e6 := PlayerCheckers_two_of_nonneg (bget g.board 26 + -1 * -1) (by omega)
        omega
      · unfold BarsCanonical SpaceBarPlayer SpaceBarOpponent
        constructor
        · rw [hboard]
          rw [bget_bset_self _ 26 _ (by rw [hbhlen]; omega)]
          rw [hbh26]
          omega
        · rw [hboard]
          rw [bget_bset_ne _ 26 27 _ (by omega)]
          rw [bget_bset_ne _ m.2 27 _ (by omega)]
          by_cases hm127 : m.1.toNat = (27 : Int).toNat
          · rw [bget_bset_eq g.board m.1 27 _ hm127 hi1]
            omega
          · rw [bget_bset_ne g.board m.1 27 _ hm127]
            omega

theorem applyAddLoop_inv (lcl : Bool) (adds : List (Int × Int)) :
    ∀ gc cw gc' cw',
      (gc.turn = 1 ∨ gc.turn = 2) → gc.board.length = 28 → BarsCanonical gc.board →
      sideCount gc.board 1 = 15 → sideCount gc.board 2 = 15 →
      (∀ b ∈ gc.boardStates, b.length = 28 ∧ sideCount b 1 = 15 ∧ sideCount b 2 = 15) →
      applyAddLoop gc cw adds lcl = some (gc', cw') →
      (gc'.turn = 1 ∨ gc'.turn = 2) ∧ gc'.board.length = 28 ∧ BarsCanonical gc'.board ∧
        sideCount gc'.board 1 = 15 ∧ sideCount gc'.board 2 = 15 ∧
        (∀ b ∈ gc'.boardStates, b.length = 28 ∧ sideCount b 1 = 15 ∧ sideCount b 2 = 15) := by
  induction adds with
  | nil =>
    intro gc cw gc' cw' h1 h2 h3 h4 h5 h6 happ
    simp only [applyAddLoop] at happ
    rw [Option.some.injEq, Prod.mk.injEq] at happ
    obtain ⟨e1, e2⟩ := happ
    subst e1
    exact ⟨h1, h2, h3, h4, h5, h6⟩
  | cons mv rest ih =>
    intro gc cw gc' cw' h1 h2 h3 h4 h5 h6 happ
    simp only [applyAddLoop] at happ
    split at happ
    · rename_i hmem
      cases hadd : gc.addMove mv with
      | none =>
        rw [hadd] at happ
        simp at happ
      | some g1 =>
        rw [hadd] at happ
        obtain ⟨hpc, hnem, ha1, ha2, ha3, ha4⟩ :=
          mem_legalMoves gc 8 lcl mv h1 h2 h3 (mem_of_moveInList mv _ hmem)
        obtain ⟨hcs1, hcs2, hcan⟩ :=
          addMove_conserves gc mv g1 h1 h2 h3 hpc hnem ha1 ha2 ha3 ha4 hadd
        obtain ⟨a1, a2, a3, a4, a5, a6, a7, a8, a9, a10, a11, a12, a13, a14, a15, a16,
          a17, a18, a19⟩ := addMove_fields gc mv g1 hadd
        refine ih g1 _ gc' cw' ?_ ?_ hcan ?_ ?_ ?_ happ
        · rw [a10]
          exact h1
        · rw [a4]
          exact h2
        · rw [hcs1]
          exact h4
        · rw [hcs2]
          exact h5
        · intro b hb
          rw [a2] at hb
          rcases List.mem_append.mp hb with hb | hb
          · exact h6 b hb
          · rw [List.mem_singleton] at hb
            subst hb
            exact ⟨h2, h4, h5⟩
    · exact ih gc cw gc' cw' h1 h2 h3 h4 h5 h6 happ

theorem applyUndoLoop_inv (undos : List (Int × Int)) :
    ∀ gc gc',
      gc.board.length = 28 →
      sideCount gc.board 1 = 15 → sideCount gc.board 2 = 15 →
      (∀ b ∈ gc.boardStates, b.length = 28 ∧ sideCount b 1 = 15 ∧ sideCount b 2 = 15) →
      applyUndoLoop gc undos = some gc' →
      gc'.board.length = 28 ∧ sideCount gc'.board 1 = 15 ∧ sideCount gc'.board 2 = 15 := by
  induction undos with
  | nil =>
    intro gc gc' h2 h4 h5 h6 happ
    simp only [applyUndoLoop] at happ
    rw [Option.some.injEq] at happ
    subst happ
    exact ⟨h2, h4, h5⟩
  | cons mv rest ih =>
    intro gc gc' h2 h4 h5 h6 happ
    simp only [applyUndoLoop] at happ
    split_ifs at happ with hl hr
    have hcase :
        (copyInto gc.board (gc.boardStates.getD (gc.moves.length - 1) [])).length = 28 ∧
        sideCount (copyInto gc.board (gc.boardStates.getD (gc.moves.length - 1) [])) 1 = 15 ∧
        sideCount (copyInto gc.board (gc.boardStates.getD (gc.moves.length - 1) [])) 2 = 15 := by
      by_cases hi : gc.moves.length - 1 < gc.boardStates.length
      · have hmem : gc.boardStates.getD (gc.moves.length - 1) [] ∈ gc.boardStates := by
          rw [List.getD_eq_getElem?_getD, List.getElem?_eq_getElem hi, Option.getD_some]
          exact List.getElem_mem hi
        obtain ⟨q1, q2, q3⟩ := h6 _ hmem
        rw [copyInto_eq_src gc.board _ (by rw [q1, h2])]
        exact ⟨q1, q2, q3⟩
      · rw [List.getD_eq_default _ _ (by omega)]
        rw [copyInto_nil]
        exact ⟨h2, h4, h5⟩
    refine ih _ gc' hcase.1 hcase.2.1 hcase.2.2 ?_ happ
    intro b hb
    exact h6 b (List.take_subset _ _ hb)

/-- C3: for every game state satisfying the reachability invariants — a
seated mover, the 28-slot board, sign-canonical bar slots, 15 checkers per
side on the board and in every stacked snapshot — a successful `AddMoves`
call preserves the per-side checker count: summing `PlayerCheckers` over
all slots still yields 15 for each player, hits included. -/
theorem addMoves_preserves_checkers (g : Game) (ms : List (Int × Int)) (lcl : Bool)
    (g' : Game) (applied : List (Int × Int))
    (ht : g.turn = 1 ∨ g.turn = 2)
    (hlen : g.board.length = 28)
    (hc : BarsCanonical g.board)
    (h15a : sideCount g.board 1 = 15) (h15b : sideCount g.board 2 = 15)
    (hstacks : ∀ b ∈ g.boardStates,
      b.length = 28 ∧ sideCount b 1 = 15 ∧ sideCount b 2 = 15)
    (hres : g.addMoves ms lcl = (true, g', applied)) :
    sideCount g'.board 1 = 15 ∧ sideCount g'.board 2 = 15 := by
  unfold Game.addMoves at hres
  split_ifs at hres with hg
  · simp at hres
  · cases hv : validateMovesLoop g lcl ms 0 with
    | none =>
      rw [hv] at hres
      simp at hres
    | some p =>
      obtain ⟨adds, undos⟩ := p
      simp only [hv] at hres
      split_ifs at hres with hmix hpos
      · simp at hres
      all_goals
        cases hA : applyAddLoop g false adds lcl with
        | none =>
          rw [hA] at hres
          simp at hres
        | some q =>
          obtain ⟨gc, cw⟩ := q
          simp only [hA] at hres
          cases hU : applyUndoLoop gc undos with
          | none =>
            rw [hU] at hres
            simp at hres
          | some gc2 =>
            simp only [hU] at hres
            rw [Prod.mk.injEq, Prod.mk.injEq] at hres
            obtain ⟨ht', hg', happ'⟩ := hres
            obtain ⟨q1, q2, q3, q4, q5, q6⟩ :=
              applyAddLoop_inv lcl adds g false gc cw ht hlen hc h15a h15b hstacks hA
            obtain ⟨r1, r2, r3⟩ := applyUndoLoop_inv undos gc gc2 q2 q4 q5 q6 hU
            have hb := (winStep_fields lcl cw gc2).1
            rw [← hg', hb]
            exact ⟨r2, r3⟩

/-- C3 witness: in the all-30-checkers tower position `gTower` the call
`AddMoves [24→22]` succeeds and both side counts remain 15. -/
theorem addMoves_preserves_checkers_witness :
    sideCount ((gTower.addMoves [(24, 22)] false).2.1.board) 1 = 15 ∧
      sideCount ((gTower.addMoves [(24, 22)] false).2.1.board) 2 = 15 :=
  addMoves_preserves_checkers gTower [(24, 22)] false
    ((gTower.addMoves [(24, 22)] false).2.1) ((gTower.addMoves [(24, 22)] false).2.2)
    (Or.inl rfl) (by decide) ⟨by decide, by decide⟩ (by decide) (by decide)
    (fun b hb => absurd hb (List.not_mem_nil b))
    (by decide)

end BG
